import Mathlib

/-!
Verification of the ordered-position maintenance logic of a kanban
task-board backend (columns ordered globally, tasks ordered within a
column), embedded shallowly from the repository's Python sources:

- data model: app/models/task.py, app/models/column.py
  (the created_at timestamp is omitted: it is never read or written by
  the ordering logic, only stored);
- SQL statement semantics: app/database/sql/task_queries.py,
  app/database/sql/column_queries.py, each statement modelled as a pure
  transformation of the table (a list of rows) together with its
  RETURNING rows;
- repository operations: app/database/implementations/task_repository.py,
  app/database/implementations/column_repository.py.

Integer columns are modelled as Int (PostgreSQL INTEGER arithmetic on the
values that occur here never overflows 32 bits in the scenarios claimed).
-/

namespace TodoBackend

/-- A row of the tasks table (app/models/task.py, TaskInDB minus created_at). -/
structure Task where
  id : Int
  title : String
  description : Option String
  column_id : Int
  order : Int
deriving DecidableEq, Repr

/-- A row of the columns table (app/models/column.py, ColumnInDB minus created_at). -/
structure Column where
  id : Int
  title : String
  order : Int
deriving DecidableEq, Repr

/-- The persistent store: the columns table and the tasks table. -/
structure Store where
  columns : List Column
  tasks : List Task
deriving DecidableEq, Repr

/-- Payload for creating a task (app/models/task.py, TaskCreate).
Pydantic validates order ≥ 0 (Field ge=0); that constraint appears as a
hypothesis of the theorems, not as a structural restriction. -/
structure TaskCreate where
  title : String
  description : Option String
  column_id : Int
  order : Int

/-- Partial update payload (app/models/task.py, TaskUpdate).
none models a field absent from model_dump(exclude_unset=True). -/
structure TaskUpdate where
  title : Option String
  description : Option (Option String)
  order : Option Int

/-- Payload for creating a column (app/models/column.py, ColumnCreate). -/
structure ColumnCreate where
  title : String
  order : Int

/-- Partial update payload (app/models/column.py, ColumnUpdate). -/
structure ColumnUpdate where
  title : Option String
  order : Option Int

namespace task_queries

/-- UPDATE tasks SET "order" = "order" + 1 WHERE column_id = $1 AND "order" >= $2
(app/database/sql/task_queries.py, SHIFT_TASKS_UP_IN_COLUMN). -/
def SHIFT_TASKS_UP_IN_COLUMN (ts : List Task) (colId pos : Int) : List Task :=
  ts.map fun t =>
    if t.column_id = colId ∧ pos ≤ t.order then { t with order := t.order + 1 } else t

/-- UPDATE tasks SET "order" = "order" - 1 WHERE column_id = $1 AND "order" > $2
(app/database/sql/task_queries.py, SHIFT_TASKS_DOWN_IN_COLUMN). -/
def SHIFT_TASKS_DOWN_IN_COLUMN (ts : List Task) (colId pos : Int) : List Task :=
  ts.map fun t =>
    if t.column_id = colId ∧ pos < t.order then { t with order := t.order - 1 } else t

/-- The CASE expression of REORDER_TASK_IN_COLUMN applied to one row,
given the moved row's old position (old_order from the current_pos CTE). -/
def reorderCase (i newOrder oldOrder : Int) (t : Task) : Task :=
  if t.id = i then { t with order := newOrder }
  else if newOrder < oldOrder ∧ newOrder ≤ t.order ∧ t.order < oldOrder then
    { t with order := t.order + 1 }
  else if oldOrder < newOrder ∧ t.order ≤ newOrder ∧ oldOrder < t.order then
    { t with order := t.order - 1 }
  else t

/-- The WHERE clause of REORDER_TASK_IN_COLUMN on one (pre-update) row:
same column as the moved row, order BETWEEN LEAST($2, old_order) AND
GREATEST($2, old_order). -/
def reorderWhere (newOrder : Int) (cur : Task) (t : Task) : Prop :=
  t.column_id = cur.column_id ∧
    min newOrder cur.order ≤ t.order ∧ t.order ≤ max newOrder cur.order

instance (newOrder : Int) (cur t : Task) : Decidable (reorderWhere newOrder cur t) := by
  unfold reorderWhere; infer_instance

/-- REORDER_TASK_IN_COLUMN (app/database/sql/task_queries.py): the CTE
current_pos selects the moved row; the UPDATE rewrites every row of its
column whose order lies between the old and the new position by the CASE
expression. Returns the new table together with the RETURNING rows (the
updated rows, with their new values). If no row has id $1 the CTE is
empty, every NULL comparison in WHERE is not satisfied, and no row is
touched. -/
def REORDER_TASK_IN_COLUMN (ts : List Task) (i newOrder : Int) :
    List Task × List Task :=
  match ts.find? (fun t => t.id == i) with
  | none => (ts, [])
  | some cur =>
    (ts.map fun t =>
        if reorderWhere newOrder cur t then reorderCase i newOrder cur.order t else t,
      (ts.filter (fun t => decide (reorderWhere newOrder cur t))).map
        (reorderCase i newOrder cur.order))

/-- UPDATE tasks SET column_id = $2, "order" = $3 WHERE id = $1 RETURNING ...
(app/database/sql/task_queries.py, MOVE_TASK_TO_COLUMN; its task_info CTE
is unused by the statement itself). Returns the new table and the
RETURNING rows. -/
def MOVE_TASK_TO_COLUMN (ts : List Task) (i targetCol newOrder : Int) :
    List Task × List Task :=
  (ts.map fun t =>
      if t.id = i then { t with column_id := targetCol, order := newOrder } else t,
    (ts.filter (fun t => t.id == i)).map
      fun t => { t with column_id := targetCol, order := newOrder })

/-- UPDATE tasks SET title = $2, description = $3, "order" = $4 WHERE id = $1
RETURNING ... (app/database/sql/task_queries.py, UPDATE_TASK). -/
def UPDATE_TASK (ts : List Task) (i : Int) (title : String)
    (description : Option String) (ord : Int) : List Task × List Task :=
  (ts.map fun t =>
      if t.id = i then { t with title := title, description := description, order := ord }
      else t,
    (ts.filter (fun t => t.id == i)).map
      fun t => { t with title := title, description := description, order := ord })

/-- DELETE FROM tasks WHERE id = $1 RETURNING id, column_id, "order"
(app/database/sql/task_queries.py, DELETE_TASK). -/
def DELETE_TASK (ts : List Task) (i : Int) : List Task × List Task :=
  (ts.filter (fun t => !(t.id == i)), ts.filter (fun t => t.id == i))

end task_queries

namespace TaskRepository

open task_queries

/-- TaskRepository.get_by_id: SELECT ... WHERE id = $1, fetchrow. -/
def get_by_id (s : Store) (i : Int) : Option Task :=
  s.tasks.find? (fun t => t.id == i)

/-- TaskRepository.create: shift the target column up at the requested
order, then INSERT the new row (the database allocates newId). Returns
the created row and the new store. -/
def create (s : Store) (tc : TaskCreate) (newId : Int) : Task × Store :=
  let shifted := SHIFT_TASKS_UP_IN_COLUMN s.tasks tc.column_id tc.order
  let newTask : Task := ⟨newId, tc.title, tc.description, tc.column_id, tc.order⟩
  (newTask, { s with tasks := shifted ++ [newTask] })

/-- TaskRepository.reorder_in_column: run REORDER_TASK_IN_COLUMN, then scan
the RETURNING rows for the one with the requested id (the Python loop
`for row in rows: if row['id'] == task_id`). -/
def reorder_in_column (s : Store) (i newOrder : Int) : Option Task × Store :=
  let res := REORDER_TASK_IN_COLUMN s.tasks i newOrder
  (res.2.find? (fun t => t.id == i), { s with tasks := res.1 })

/-- TaskRepository.update: fetch the row; absent id returns None with no
write. Fields not provided default to the existing values
(update_data.get(field, existing.field)). If the resulting order differs
from the existing order the whole update is delegated to
reorder_in_column; otherwise UPDATE_TASK writes the fields. -/
def update (s : Store) (i : Int) (u : TaskUpdate) : Option Task × Store :=
  match get_by_id s i with
  | none => (none, s)
  | some existing =>
    let title := u.title.getD existing.title
    let description := u.description.getD existing.description
    let ord := u.order.getD existing.order
    if ord ≠ existing.order then
      reorder_in_column s i ord
    else
      let res := UPDATE_TASK s.tasks i title description ord
      (res.2.head?, { s with tasks := res.1 })

/-- TaskRepository.delete: fetch the row (absent id returns False with no
write), DELETE it, then shift its old column down past its old order. -/
def delete (s : Store) (i : Int) : Bool × Store :=
  match get_by_id s i with
  | none => (false, s)
  | some existing =>
    let res := DELETE_TASK s.tasks i
    match res.2.head? with
    | none => (false, { s with tasks := res.1 })
    | some _ =>
      (true, { s with tasks :=
        SHIFT_TASKS_DOWN_IN_COLUMN res.1 existing.column_id existing.order })

/-- TaskRepository.move_to_column: fetch the row (absent id returns None);
a move into the row's current column delegates to reorder_in_column;
otherwise shift the target column up at new_order, rewrite the row's
column_id and order (MOVE_TASK_TO_COLUMN, whose RETURNING row is the
value returned), and finally shift the old column down past the old
order. -/
def move_to_column (s : Store) (i targetCol newOrder : Int) : Option Task × Store :=
  match get_by_id s i with
  | none => (none, s)
  | some existing =>
    if existing.column_id = targetCol then
      reorder_in_column s i newOrder
    else
      let ts1 := SHIFT_TASKS_UP_IN_COLUMN s.tasks targetCol newOrder
      let res := MOVE_TASK_TO_COLUMN ts1 i targetCol newOrder
      let ts3 := SHIFT_TASKS_DOWN_IN_COLUMN res.1 existing.column_id existing.order
      (res.2.head?, { s with tasks := ts3 })

/-- The store as persisted if move_to_column is interrupted right after its
first statement (the SHIFT_TASKS_UP_IN_COLUMN on the target column).
The source issues its three statements on one pooled connection with no
transaction block (grep for "transaction" over src finds none), so each
statement autocommits and this intermediate state is durable. -/
def move_to_column_after_shift (s : Store) (targetCol newOrder : Int) : Store :=
  { s with tasks := task_queries.SHIFT_TASKS_UP_IN_COLUMN s.tasks targetCol newOrder }

end TaskRepository

namespace column_queries

/-- UPDATE columns SET "order" = "order" + 1 WHERE "order" >= $1
(app/database/sql/column_queries.py, SHIFT_COLUMNS_UP). -/
def SHIFT_COLUMNS_UP (cs : List Column) (pos : Int) : List Column :=
  cs.map fun c => if pos ≤ c.order then { c with order := c.order + 1 } else c

/-- UPDATE columns SET "order" = "order" - 1 WHERE "order" > $1
(app/database/sql/column_queries.py, SHIFT_COLUMNS_DOWN). -/
def SHIFT_COLUMNS_DOWN (cs : List Column) (pos : Int) : List Column :=
  cs.map fun c => if pos < c.order then { c with order := c.order - 1 } else c

/-- The CASE expression of REORDER_COLUMN applied to one row. -/
def reorderCase (i newOrder oldOrder : Int) (c : Column) : Column :=
  if c.id = i then { c with order := newOrder }
  else if newOrder < oldOrder ∧ newOrder ≤ c.order ∧ c.order < oldOrder then
    { c with order := c.order + 1 }
  else if oldOrder < newOrder ∧ c.order ≤ newOrder ∧ oldOrder < c.order then
    { c with order := c.order - 1 }
  else c

/-- The WHERE clause of REORDER_COLUMN on one (pre-update) row: order
BETWEEN LEAST($2, old_order) AND GREATEST($2, old_order) — no column
filter, the container is the whole columns table. -/
def reorderWhere (newOrder : Int) (cur : Column) (c : Column) : Prop :=
  min newOrder cur.order ≤ c.order ∧ c.order ≤ max newOrder cur.order

instance (newOrder : Int) (cur c : Column) : Decidable (reorderWhere newOrder cur c) := by
  unfold reorderWhere; infer_instance

/-- REORDER_COLUMN (app/database/sql/column_queries.py): same shape as
REORDER_TASK_IN_COLUMN over the global columns container. -/
def REORDER_COLUMN (cs : List Column) (i newOrder : Int) :
    List Column × List Column :=
  match cs.find? (fun c => c.id == i) with
  | none => (cs, [])
  | some cur =>
    (cs.map fun c =>
        if reorderWhere newOrder cur c then reorderCase i newOrder cur.order c else c,
      (cs.filter (fun c => decide (reorderWhere newOrder cur c))).map
        (reorderCase i newOrder cur.order))

/-- UPDATE columns SET title = $2, "order" = $3 WHERE id = $1 RETURNING ...
(app/database/sql/column_queries.py, UPDATE_COLUMN). -/
def UPDATE_COLUMN (cs : List Column) (i : Int) (title : String) (ord : Int) :
    List Column × List Column :=
  (cs.map fun c => if c.id = i then { c with title := title, order := ord } else c,
    (cs.filter (fun c => c.id == i)).map fun c => { c with title := title, order := ord })

/-- DELETE FROM columns WHERE id = $1 RETURNING id
(app/database/sql/column_queries.py, DELETE_COLUMN). The tasks table has
ForeignKeyConstraint(column_id → columns.id, ondelete CASCADE)
(alembic/versions/4ff83a080ba6_create_kanban_tables.py), so the database
also deletes every task of the column. -/
def DELETE_COLUMN (s : Store) (i : Int) : Store × List Column :=
  (⟨s.columns.filter (fun c => !(c.id == i)),
      s.tasks.filter (fun t => !(t.column_id == i))⟩,
    s.columns.filter (fun c => c.id == i))

end column_queries

namespace ColumnRepository

open column_queries

/-- ColumnRepository.get_by_id. -/
def get_by_id (s : Store) (i : Int) : Option Column :=
  s.columns.find? (fun c => c.id == i)

/-- ColumnRepository.create: shift at the requested order, then INSERT. -/
def create (s : Store) (cc : ColumnCreate) (newId : Int) : Column × Store :=
  let shifted := SHIFT_COLUMNS_UP s.columns cc.order
  let newCol : Column := ⟨newId, cc.title, cc.order⟩
  (newCol, { s with columns := shifted ++ [newCol] })

/-- ColumnRepository.reorder: run REORDER_COLUMN, then scan the RETURNING
rows for the requested id. -/
def reorder (s : Store) (i newOrder : Int) : Option Column × Store :=
  let res := REORDER_COLUMN s.columns i newOrder
  (res.2.find? (fun c => c.id == i), { s with columns := res.1 })

/-- ColumnRepository.update: same delegation as TaskRepository.update —
an order change routes the whole update through reorder. -/
def update (s : Store) (i : Int) (u : ColumnUpdate) : Option Column × Store :=
  match get_by_id s i with
  | none => (none, s)
  | some existing =>
    let title := u.title.getD existing.title
    let ord := u.order.getD existing.order
    if ord ≠ existing.order then
      reorder s i ord
    else
      let res := UPDATE_COLUMN s.columns i title ord
      (res.2.head?, { s with columns := res.1 })

/-- ColumnRepository.delete: fetch the row (absent id returns False),
DELETE it (the database cascades to its tasks), then shift the columns
container down past its old order. -/
def delete (s : Store) (i : Int) : Bool × Store :=
  match get_by_id s i with
  | none => (false, s)
  | some existing =>
    let res := DELETE_COLUMN s i
    match res.2.head? with
    | none => (false, res.1)
    | some _ =>
      (true, { res.1 with columns := SHIFT_COLUMNS_DOWN res.1.columns existing.order })

end ColumnRepository

/-! ### Spec vocabulary: containers and the dense-ordering invariant -/

/-- The task container of one column: the rows with that column_id. -/
def tasksIn (s : Store) (colId : Int) : List Task :=
  s.tasks.filter (fun t => t.column_id == colId)

/-- The order values of one task container. -/
def taskOrders (s : Store) (colId : Int) : List Int :=
  (tasksIn s colId).map Task.order

/-- The order values of the global columns container. -/
def columnOrders (s : Store) : List Int :=
  s.columns.map Column.order

/-- The list [0, 1, ..., n-1] over Int. -/
def denseList : Nat → List Int
  | 0 => []
  | n + 1 => denseList n ++ [(n : Int)]

/-- Dense ordering: the multiset of order values is exactly
{0, 1, ..., n-1} for n the container size — no gaps, no duplicates. -/
def Dense (orders : List Int) : Prop :=
  orders.Perm (denseList orders.length)

instance (orders : List Int) : Decidable (Dense orders) := by
  unfold Dense; exact List.decidablePerm _ _

/-- The spec invariant over the whole store: the columns container and
every task container are dense. -/
def StoreInv (s : Store) : Prop :=
  Dense (columnOrders s) ∧ ∀ colId : Int, Dense (taskOrders s colId)

/-- Task ids are pairwise distinct (tasks.id is the primary key). -/
def IdsNodup (s : Store) : Prop := (s.tasks.map Task.id).Nodup

/-- Column ids are pairwise distinct (columns.id is the primary key). -/
def ColIdsNodup (s : Store) : Prop := (s.columns.map Column.id).Nodup

instance (s : Store) : Decidable (IdsNodup s) := by
  unfold IdsNodup; infer_instance

instance (s : Store) : Decidable (ColIdsNodup s) := by
  unfold ColIdsNodup; infer_instance

/-- Order effect of an insert at position p on a sibling at order o. -/
def upShift (p o : Int) : Int := if p ≤ o then o + 1 else o

/-- Order effect of a removal at position k on a sibling at order o. -/
def downShift (k o : Int) : Int := if k < o then o - 1 else o

/-- Net order effect of a reposition from a to b on a sibling at order o
(o ≠ a): the single shifted half-open range of the spec. -/
def rotateShift (a b o : Int) : Int :=
  if b < a ∧ b ≤ o ∧ o < a then o + 1
  else if a < b ∧ a < o ∧ o ≤ b then o - 1
  else o

/-! ### Core lemmas about dense orderings -/

theorem denseList_length (n : Nat) : (denseList n).length = n := by
  induction n with
  | zero => rfl
  | succ n ih => simp [denseList, ih]

theorem count_denseList (n : Nat) (k : Int) :
    (denseList n).count k = if 0 ≤ k ∧ k < (n : Int) then 1 else 0 := by
  induction n with
  | zero =>
    simp only [denseList, List.count_nil]
    split_ifs with h
    · omega
    · rfl
  | succ n ih =>
    simp only [denseList, List.count_append, List.count_singleton, beq_iff_eq, ih]
    split_ifs <;> omega

theorem dense_iff_count (L : List Int) :
    Dense L ↔ ∀ k : Int, L.count k = if 0 ≤ k ∧ k < (L.length : Int) then 1 else 0 := by
  unfold Dense
  rw [List.perm_iff_count]
  constructor
  · intro h k
    rw [h k, count_denseList]
  · intro h k
    rw [h k, count_denseList]

theorem Dense.perm {L L' : List Int} (h : Dense L) (hp : L.Perm L') : Dense L' := by
  unfold Dense at h ⊢
  exact hp.length_eq ▸ (hp.symm.trans h)

theorem dense_nil : Dense [] := List.Perm.refl _

theorem Dense.nodup {L : List Int} (h : Dense L) : L.Nodup := by
  rw [dense_iff_count] at h
  rw [List.nodup_iff_count_le_one]
  intro k
  rw [h k]
  split_ifs <;> omega

/-- Counting through a map whose preimage of k within R is exactly j. -/
theorem count_map_eq_count (f : Int → Int) (R : List Int) (k j : Int)
    (h : ∀ o ∈ R, f o = k ↔ o = j) : (R.map f).count k = R.count j := by
  induction R with
  | nil => rfl
  | cons o R ih =>
    simp only [List.map_cons, List.count_cons, beq_iff_eq]
    rw [ih (fun x hx => h x (List.mem_cons_of_mem _ hx))]
    have hiff := h o (List.mem_cons_self o R)
    simp [hiff]

/-- Counting through a map that never hits k within R. -/
theorem count_map_eq_zero (f : Int → Int) (R : List Int) (k : Int)
    (h : ∀ o ∈ R, f o ≠ k) : (R.map f).count k = 0 := by
  rw [List.count_eq_zero]
  intro hk
  rw [List.mem_map] at hk
  obtain ⟨o, ho, hfo⟩ := hk
  exact h o ho hfo

/-- Insert lemma: shifting every sibling at order ≥ p up by one and adding
a new element at p preserves density, for 0 ≤ p ≤ n. -/
theorem dense_insert {M : List Int} {p : Int} (hM : Dense M) (h0 : 0 ≤ p)
    (hn : p ≤ (M.length : Int)) : Dense (M.map (upShift p) ++ [p]) := by
  rw [dense_iff_count] at hM ⊢
  intro k
  simp only [List.count_append, List.count_singleton, beq_iff_eq,
    List.length_append, List.length_map, List.length_singleton]
  by_cases hk : k < p
  · rw [count_map_eq_count (upShift p) M k k
      (fun o _ => by unfold upShift; split_ifs <;> omega)]
    have := hM k
    split_ifs at this ⊢ <;> omega
  · by_cases hkp : k = p
    · rw [count_map_eq_zero (upShift p) M k
        (fun o _ => by unfold upShift; split_ifs <;> omega)]
      split_ifs <;> omega
    · rw [count_map_eq_count (upShift p) M k (k - 1)
        (fun o _ => by unfold upShift; split_ifs <;> omega)]
      have := hM (k - 1)
      split_ifs at this ⊢ <;> omega

theorem Dense.head_bounds {a : Int} {R : List Int} (h : Dense (a :: R)) :
    0 ≤ a ∧ a < (R.length : Int) + 1 := by
  rw [dense_iff_count] at h
  have := h a
  simp only [List.count_cons, beq_iff_eq, List.length_cons] at this
  split_ifs at this <;> push_cast at * <;> omega

theorem Dense.head_count {a : Int} {R : List Int} (h : Dense (a :: R)) :
    R.count a = 0 := by
  rw [dense_iff_count] at h
  have := h a
  simp only [List.count_cons, beq_iff_eq, List.length_cons] at this
  split_ifs at this <;> omega

theorem Dense.head_not_mem {a : Int} {R : List Int} (h : Dense (a :: R)) : a ∉ R :=
  List.count_eq_zero.mp h.head_count

/-- Remove lemma: taking out the element at order a and shifting every
sibling at order > a down by one preserves density. -/
theorem dense_remove {a : Int} {R : List Int} (h : Dense (a :: R)) :
    Dense (R.map (downShift a)) := by
  have hb := h.head_bounds
  have hnm := h.head_not_mem
  rw [dense_iff_count] at h ⊢
  intro k
  simp only [List.length_map]
  by_cases hk : k < a
  · rw [count_map_eq_count (downShift a) R k k
      (fun o _ => by unfold downShift; split_ifs <;> omega)]
    have := h k
    simp only [List.count_cons, beq_iff_eq, List.length_cons] at this
    split_ifs at this ⊢ <;> omega
  · rw [count_map_eq_count (downShift a) R k (k + 1)
      (fun o ho => by
        have hne : o ≠ a := fun he => hnm (he ▸ ho)
        unfold downShift; split_ifs <;> omega)]
    have := h (k + 1)
    simp only [List.count_cons, beq_iff_eq, List.length_cons] at this
    split_ifs at this ⊢ <;> omega

/-- The net reposition effect on a sibling (o ≠ a) is removal at a
followed by insertion at b. -/
theorem rotateShift_eq_comp {a b o : Int} (ho : o ≠ a) :
    rotateShift a b o = upShift b (downShift a o) := by
  unfold rotateShift upShift downShift
  split_ifs <;> omega

/-- Reposition lemma: moving the element at order a to order b
(0 ≤ b < n) and applying the single-range shift to the siblings
preserves density. -/
theorem dense_rotate {a b : Int} {R : List Int} (h : Dense (a :: R)) (h0 : 0 ≤ b)
    (hb : b < (R.length : Int) + 1) : Dense (b :: R.map (rotateShift a b)) := by
  have hnm := h.head_not_mem
  have h1 : Dense (R.map (downShift a)) := dense_remove h
  have h2 : Dense ((R.map (downShift a)).map (upShift b) ++ [b]) := by
    refine dense_insert h1 h0 ?_
    simp only [List.length_map]
    omega
  refine h2.perm ?_
  have hmap : (R.map (downShift a)).map (upShift b) = R.map (rotateShift a b) := by
    rw [List.map_map]
    refine List.map_congr_left fun o ho => ?_
    have hne : o ≠ a := fun he => hnm (he ▸ ho)
    exact (rotateShift_eq_comp hne).symm
  rw [hmap] at h2 ⊢
  exact List.perm_append_singleton b _

/-- Repositioning from a to b and back is the identity on every sibling. -/
theorem rotateShift_inv {a b o : Int} (ho : o ≠ a) :
    rotateShift b a (rotateShift a b o) = o := by
  unfold rotateShift
  split_ifs <;> omega

/-! ### Plumbing: keys, filters and finds over the row lists -/

theorem find?_key_eq_some {α β : Type} [BEq β] [LawfulBEq β] (key : α → β)
    {l : List α} {t : α} {i : β}
    (hn : (l.map key).Nodup) (ht : t ∈ l) (hi : key t = i) :
    l.find? (fun x => key x == i) = some t := by
  induction l with
  | nil => cases ht
  | cons a l ih =>
    rw [List.map_cons, List.nodup_cons] at hn
    rcases List.mem_cons.mp ht with rfl | hmem
    · exact List.find?_cons_of_pos _ (by simp [hi])
    · have hne : ¬ (key a == i) = true := by
        simp only [beq_iff_eq]
        intro he
        apply hn.1
        have hm := List.mem_map_of_mem key hmem
        rw [hi] at hm
        rw [he]
        exact hm
      rw [@List.find?_cons_of_neg _ (fun x => key x == i) a l hne]
      exact ih hn.2 hmem

theorem find?_key_eq_none {α β : Type} [BEq β] [LawfulBEq β] (key : α → β)
    {l : List α} {i : β} (h : ∀ x ∈ l, key x ≠ i) :
    l.find? (fun x => key x == i) = none := by
  rw [List.find?_eq_none]
  intro x hx
  simp [h x hx]

theorem filter_key_eq_single {α β : Type} [BEq β] [LawfulBEq β] (key : α → β)
    {l : List α} {t : α} {i : β}
    (hn : (l.map key).Nodup) (ht : t ∈ l) (hi : key t = i) :
    l.filter (fun x => key x == i) = [t] := by
  induction l with
  | nil => cases ht
  | cons a l ih =>
    rw [List.map_cons, List.nodup_cons] at hn
    rcases List.mem_cons.mp ht with rfl | hmem
    · rw [List.filter_cons_of_pos (by simp [hi])]
      have : l.filter (fun x => key x == i) = [] := by
        rw [List.filter_eq_nil_iff]
        intro x hx
        simp only [beq_iff_eq]
        intro he
        apply hn.1
        have hm := List.mem_map_of_mem key hx
        rw [he, ← hi] at hm
        exact hm
      rw [this]
    · have hne : ¬ (key a == i) = true := by
        simp only [beq_iff_eq]
        intro he
        apply hn.1
        have hm := List.mem_map_of_mem key hmem
        rw [hi] at hm
        rw [he]
        exact hm
      rw [@List.filter_cons_of_neg _ (fun x => key x == i) a l hne]
      exact ih hn.2 hmem

theorem filter_key_ne_eq_erase {α β : Type} [DecidableEq α] [BEq β] [LawfulBEq β]
    (key : α → β) {l : List α} {t : α} {i : β}
    (hn : (l.map key).Nodup) (ht : t ∈ l) (hi : key t = i) :
    l.filter (fun x => !(key x == i)) = l.erase t := by
  induction l with
  | nil => cases ht
  | cons a l ih =>
    rw [List.map_cons, List.nodup_cons] at hn
    rcases List.mem_cons.mp ht with rfl | hmem
    · rw [List.erase_cons_head, List.filter_cons_of_neg (by simp [hi])]
      refine List.filter_eq_self.mpr ?_
      intro x hx
      simp only [Bool.not_eq_true', beq_eq_false_iff_ne, ne_eq]
      intro he
      apply hn.1
      have hm := List.mem_map_of_mem key hx
      rw [he, ← hi] at hm
      exact hm
    · have hne : key a ≠ i := by
        intro he
        apply hn.1
        have hm := List.mem_map_of_mem key hmem
        rw [hi] at hm
        rw [he]
        exact hm
      have hat : a ≠ t := fun he => hne (he ▸ hi)
      rw [@List.filter_cons_of_pos _ (fun x => !(key x == i)) a l (by simp [hne]),
        List.erase_cons_tail (by simpa using hat)]
      rw [ih hn.2 hmem]

theorem filter_key_absent {α β : Type} [BEq β] [LawfulBEq β] (key : α → β)
    {l : List α} {i : β} (h : ∀ x ∈ l, key x ≠ i) :
    l.filter (fun x => key x == i) = [] := by
  rw [List.filter_eq_nil_iff]
  intro x hx
  simp [h x hx]

theorem map_eq_self {α : Type} {F : α → α} {l : List α} (h : ∀ x ∈ l, F x = x) :
    l.map F = l :=
  (List.map_congr_left h).trans (List.map_id l)

theorem map_erase_perm {α β : Type} [DecidableEq α] [DecidableEq β]
    (f : α → β) {l : List α} {a : α} (ha : a ∈ l) :
    ((l.erase a).map f).Perm ((l.map f).erase (f a)) := by
  have h2 := (List.perm_cons_erase ha).map f
  have h3 := h2.erase (f a)
  rw [List.map_cons, List.erase_cons_head] at h3
  exact h3.symm

/-- Filtering a container commutes with a row map that preserves column_id. -/
theorem filter_col_map_comm (F : Task → Task) (hF : ∀ t, (F t).column_id = t.column_id)
    (l : List Task) (c : Int) :
    (l.map F).filter (fun t => t.column_id == c) =
      (l.filter (fun t => t.column_id == c)).map F := by
  rw [List.filter_map]
  congr 1
  refine List.filter_congr ?_
  intro x _
  simp [Function.comp, hF]

/-- A row map that preserves column_id and fixes the rows outside column c₀
leaves every other container untouched. -/
theorem filter_col_map_other {F : Task → Task} {c₀ : Int}
    (hF : ∀ t, (F t).column_id = t.column_id)
    (hid : ∀ t, t.column_id ≠ c₀ → F t = t) (l : List Task) {c : Int} (hc : c ≠ c₀) :
    (l.map F).filter (fun t => t.column_id == c) =
      l.filter (fun t => t.column_id == c) := by
  rw [filter_col_map_comm F hF]
  refine map_eq_self ?_
  intro x hx
  rw [List.mem_filter] at hx
  have : x.column_id = c := by simpa using hx.2
  exact hid x (by rw [this]; exact hc)

/-! ### Characterization of TaskRepository.create -/

/-- The new row of a create. -/
def createdTask (tc : TaskCreate) (nid : Int) : Task :=
  ⟨nid, tc.title, tc.description, tc.column_id, tc.order⟩

theorem create_tasksIn_target (s : Store) (tc : TaskCreate) (nid : Int) :
    tasksIn (TaskRepository.create s tc nid).2 tc.column_id =
      (tasksIn s tc.column_id).map
        (fun t => if tc.order ≤ t.order then { t with order := t.order + 1 } else t) ++
      [createdTask tc nid] := by
  unfold TaskRepository.create tasksIn task_queries.SHIFT_TASKS_UP_IN_COLUMN createdTask
  rw [List.filter_append,
    filter_col_map_comm _ (fun t => by split_ifs <;> rfl)]
  congr 1
  · refine List.map_congr_left ?_
    intro x hx
    rw [List.mem_filter] at hx
    have hc : x.column_id = tc.column_id := by simpa using hx.2
    simp [hc]
  · simp

theorem create_taskOrders_target (s : Store) (tc : TaskCreate) (nid : Int) :
    taskOrders (TaskRepository.create s tc nid).2 tc.column_id =
      (taskOrders s tc.column_id).map (upShift tc.order) ++ [tc.order] := by
  unfold taskOrders
  rw [create_tasksIn_target, List.map_append, List.map_map, List.map_map]
  congr 1
  refine List.map_congr_left ?_
  intro x _
  unfold upShift
  simp only [Function.comp]
  split_ifs <;> rfl

theorem create_tasksIn_other (s : Store) (tc : TaskCreate) (nid : Int) {c : Int}
    (hc : c ≠ tc.column_id) :
    tasksIn (TaskRepository.create s tc nid).2 c = tasksIn s c := by
  unfold TaskRepository.create tasksIn task_queries.SHIFT_TASKS_UP_IN_COLUMN
  rw [List.filter_append,
    filter_col_map_other (fun t => by split_ifs <;> rfl)
      (fun t hcol => by
        split_ifs with h
        · exact absurd h.1 hcol
        · rfl) _ hc]
  have hne : tc.column_id ≠ c := fun h => hc h.symm
  simp [createdTask, hne]

theorem create_columns_eq (s : Store) (tc : TaskCreate) (nid : Int) :
    (TaskRepository.create s tc nid).2.columns = s.columns := rfl

/-- C2 (amended): create does NOT clamp the requested order; for every
container and every requested order p with 0 ≤ p ≤ n (n = container
size), create increments the order of every existing sibling at order ≥ p
by 1, leaves siblings below p untouched, and stores the new entity with
order = p; afterwards the container holds n+1 entities with dense orders
0..n and exactly one entity at order p, and every other container is
unchanged. -/
theorem create_insert_postcondition (s : Store) (tc : TaskCreate) (nid : Int)
    (hD : Dense (taskOrders s tc.column_id)) (h0 : 0 ≤ tc.order)
    (hn : tc.order ≤ ((taskOrders s tc.column_id).length : Int)) :
    (TaskRepository.create s tc nid).1 = createdTask tc nid ∧
    tasksIn (TaskRepository.create s tc nid).2 tc.column_id =
      (tasksIn s tc.column_id).map
        (fun t => if tc.order ≤ t.order then { t with order := t.order + 1 } else t) ++
      [createdTask tc nid] ∧
    Dense (taskOrders (TaskRepository.create s tc nid).2 tc.column_id) ∧
    (taskOrders (TaskRepository.create s tc nid).2 tc.column_id).length =
      (taskOrders s tc.column_id).length + 1 ∧
    (taskOrders (TaskRepository.create s tc nid).2 tc.column_id).count tc.order = 1 ∧
    ∀ c : Int, c ≠ tc.column_id →
      tasksIn (TaskRepository.create s tc nid).2 c = tasksIn s c := by
  have hdense : Dense (taskOrders (TaskRepository.create s tc nid).2 tc.column_id) := by
    rw [create_taskOrders_target]
    exact dense_insert hD h0 hn
  have hlen : (taskOrders (TaskRepository.create s tc nid).2 tc.column_id).length =
      (taskOrders s tc.column_id).length + 1 := by
    rw [create_taskOrders_target]
    simp
  refine ⟨rfl, create_tasksIn_target s tc nid, hdense, hlen, ?_,
    fun c hc => create_tasksIn_other s tc nid hc⟩
  rw [dense_iff_count] at hdense
  rw [hdense tc.order, hlen]
  split_ifs with h
  · rfl
  · exfalso
    push_cast at h
    omega

/-- C2, failure of the claim as stated: requested orders are not clamped
to [0, n]. Creating a task at requested order 5 in an empty column stores
it at order 5 (clamping would store it at 0) and leaves the container of
size 1 without dense orders {0}. -/
theorem create_no_clamp_counterexample :
    (TaskRepository.create ⟨[⟨1, "Todo", 0⟩], []⟩ ⟨"a", none, 1, 5⟩ 1).1.order = 5 ∧
    ¬ Dense (taskOrders (TaskRepository.create ⟨[⟨1, "Todo", 0⟩], []⟩ ⟨"a", none, 1, 5⟩ 1).2 1) := by
  decide

/-- C2, witness: the amended insert postcondition evaluated on a concrete
container [A:0] with a new task requested at order 0. -/
theorem create_insert_postcondition_witness :
    Dense (taskOrders ⟨[⟨1, "Todo", 0⟩], [⟨1, "A", none, 1, 0⟩]⟩ 1) ∧
    Dense (taskOrders
      (TaskRepository.create ⟨[⟨1, "Todo", 0⟩], [⟨1, "A", none, 1, 0⟩]⟩ ⟨"B", none, 1, 0⟩ 2).2 1) ∧
    (taskOrders
      (TaskRepository.create ⟨[⟨1, "Todo", 0⟩], [⟨1, "A", none, 1, 0⟩]⟩ ⟨"B", none, 1, 0⟩ 2).2 1).count 0 = 1 :=
  ⟨by decide,
    (create_insert_postcondition ⟨[⟨1, "Todo", 0⟩], [⟨1, "A", none, 1, 0⟩]⟩ ⟨"B", none, 1, 0⟩ 2
      (by decide) (by decide) (by decide)).2.2.1,
    (create_insert_postcondition ⟨[⟨1, "Todo", 0⟩], [⟨1, "A", none, 1, 0⟩]⟩ ⟨"B", none, 1, 0⟩ 2
      (by decide) (by decide) (by decide)).2.2.2.2.1⟩

/-- Record-equality helper: two order-updates of the same row agree when
the order values agree. -/
theorem task_set_order_congr {x : Task} {v w : Int} (h : v = w) :
    ({ x with order := v } : Task) = { x with order := w } := by
  rw [h]

/-- Record-equality helper: setting the order to its current value is the
identity. -/
theorem task_set_order_self {x : Task} {w : Int} (h : w = x.order) :
    x = { x with order := w } := by
  rw [h]

/-! ### Characterization of TaskRepository.reorder_in_column -/

/-- The row transformation of the reorder UPDATE, given the found row. -/
def reorderRow (i newOrder : Int) (cur : Task) (t : Task) : Task :=
  if task_queries.reorderWhere newOrder cur t then
    task_queries.reorderCase i newOrder cur.order t
  else t

/-- The per-sibling effect of a reposition as the spec states it: the moved
entity goes to order b; a sibling inside the single shifted range moves by
one towards the vacated position; everything else keeps its order. -/
def repositionSpecRow (i a b : Int) (x : Task) : Task :=
  if x.id = i then { x with order := b } else { x with order := rotateShift a b x.order }

theorem reorderRow_id (i nb : Int) (cur t : Task) : (reorderRow i nb cur t).id = t.id := by
  unfold reorderRow task_queries.reorderCase
  split_ifs <;> rfl

theorem reorderRow_col (i nb : Int) (cur t : Task) :
    (reorderRow i nb cur t).column_id = t.column_id := by
  unfold reorderRow task_queries.reorderCase
  split_ifs <;> rfl

theorem reorderRow_other_col (i nb : Int) (cur : Task) {t : Task}
    (h : t.column_id ≠ cur.column_id) : reorderRow i nb cur t = t := by
  unfold reorderRow task_queries.reorderWhere
  rw [if_neg]
  intro hw
  exact h hw.1

theorem reorderWhere_self (nb : Int) (cur : Task) : task_queries.reorderWhere nb cur cur :=
  ⟨rfl, min_le_right _ _, le_max_right _ _⟩

/-- The found branch of reorder_in_column: the store after and the row
returned, in closed form. -/
theorem reorder_state_found {s : Store} {i nb : Int} {t : Task}
    (hn : IdsNodup s) (ht : t ∈ s.tasks) (hi : t.id = i) :
    (TaskRepository.reorder_in_column s i nb).2.tasks = s.tasks.map (reorderRow i nb t) := by
  unfold TaskRepository.reorder_in_column task_queries.REORDER_TASK_IN_COLUMN
  rw [find?_key_eq_some Task.id hn ht hi]
  rfl

theorem reorder_ret_found {s : Store} {i nb : Int} {t : Task}
    (hn : IdsNodup s) (ht : t ∈ s.tasks) (hi : t.id = i) :
    (TaskRepository.reorder_in_column s i nb).1 = some { t with order := nb } := by
  unfold TaskRepository.reorder_in_column task_queries.REORDER_TASK_IN_COLUMN
  rw [find?_key_eq_some Task.id hn ht hi]
  have hsub : ((s.tasks.filter
      (fun x => decide (task_queries.reorderWhere nb t x))).map Task.id).Nodup :=
    ((List.filter_sublist s.tasks).map Task.id).nodup hn
  have hrows : (((s.tasks.filter
        (fun x => decide (task_queries.reorderWhere nb t x))).map
          (task_queries.reorderCase i nb t.order)).map Task.id).Nodup := by
    rw [List.map_map]
    have : (Task.id ∘ task_queries.reorderCase i nb t.order) = Task.id := by
      funext x
      simp only [Function.comp]
      unfold task_queries.reorderCase
      split_ifs <;> rfl
    rw [this]
    exact hsub
  have hmem : t ∈ s.tasks.filter (fun x => decide (task_queries.reorderWhere nb t x)) := by
    rw [List.mem_filter]
    exact ⟨ht, by simp [reorderWhere_self]⟩
  have hmem2 := List.mem_map_of_mem (task_queries.reorderCase i nb t.order) hmem
  have hcase : task_queries.reorderCase i nb t.order t = { t with order := nb } := by
    unfold task_queries.reorderCase
    rw [if_pos hi]
  rw [hcase] at hmem2
  exact find?_key_eq_some Task.id hrows hmem2 hi

theorem reorder_columns_eq (s : Store) (i nb : Int) :
    (TaskRepository.reorder_in_column s i nb).2.columns = s.columns := rfl

/-- In the moved row's own container, the reorder UPDATE acts exactly as
the spec's reposition: the row to nb, the single range shifted by one,
everything else untouched. -/
theorem reorder_tasksIn_target {s : Store} {i nb : Int} {t : Task}
    (hn : IdsNodup s) (ht : t ∈ s.tasks) (hi : t.id = i) :
    tasksIn (TaskRepository.reorder_in_column s i nb).2 t.column_id =
      (tasksIn s t.column_id).map (repositionSpecRow i t.order nb) := by
  have hstate := @reorder_state_found s i nb t hn ht hi
  show ((TaskRepository.reorder_in_column s i nb).2.tasks.filter
    (fun x => x.column_id == t.column_id)) = _
  rw [hstate, filter_col_map_comm _ (reorderRow_col i nb t)]
  refine List.map_congr_left ?_
  intro x hx
  rw [List.mem_filter] at hx
  have hcx : x.column_id = t.column_id := by simpa using hx.2
  unfold repositionSpecRow
  by_cases hxi : x.id = i
  · have hxt : x = t := List.inj_on_of_nodup_map hn hx.1 ht (by rw [hxi, hi])
    subst hxt
    rw [if_pos hxi]
    unfold reorderRow
    rw [if_pos (reorderWhere_self nb x)]
    unfold task_queries.reorderCase
    rw [if_pos hxi]
  · rw [if_neg hxi]
    unfold reorderRow task_queries.reorderCase task_queries.reorderWhere rotateShift
    simp only [min_def, max_def]
    split_ifs <;> first
      | rfl
      | (exact task_set_order_congr (by omega))
      | (exact task_set_order_self (by omega))
      | (exfalso; omega)

theorem reorder_tasksIn_other {s : Store} {i nb : Int} {t : Task} {c : Int}
    (hn : IdsNodup s) (ht : t ∈ s.tasks) (hi : t.id = i) (hc : c ≠ t.column_id) :
    tasksIn (TaskRepository.reorder_in_column s i nb).2 c = tasksIn s c := by
  have hstate := @reorder_state_found s i nb t hn ht hi
  show ((TaskRepository.reorder_in_column s i nb).2.tasks.filter
    (fun x => x.column_id == c)) = _
  rw [hstate,
    filter_col_map_other (reorderRow_col i nb t)
      (fun x hcol => reorderRow_other_col i nb t hcol) _ hc]
  rfl

/-- The moved row belongs to its own container. -/
theorem mem_tasksIn_self {s : Store} {t : Task} (ht : t ∈ s.tasks) :
    t ∈ tasksIn s t.column_id := by
  rw [tasksIn, List.mem_filter]
  exact ⟨ht, by simp⟩

/-- Orders of the moved row's container after a reorder, as a multiset:
the new position plus the rotated remainder. -/
theorem reorder_taskOrders_perm {s : Store} {i nb : Int} {t : Task}
    (hn : IdsNodup s) (ht : t ∈ s.tasks) (hi : t.id = i) :
    (taskOrders (TaskRepository.reorder_in_column s i nb).2 t.column_id).Perm
      (nb :: ((taskOrders s t.column_id).erase t.order).map (rotateShift t.order nb)) := by
  have htc := mem_tasksIn_self ht
  have h1 : taskOrders (TaskRepository.reorder_in_column s i nb).2 t.column_id =
      (tasksIn s t.column_id).map (Task.order ∘ repositionSpecRow i t.order nb) := by
    rw [taskOrders, reorder_tasksIn_target hn ht hi, List.map_map]
  rw [h1]
  have h2 : ((tasksIn s t.column_id).map (Task.order ∘ repositionSpecRow i t.order nb)).Perm
      ((t :: (tasksIn s t.column_id).erase t).map
        (Task.order ∘ repositionSpecRow i t.order nb)) :=
    (List.perm_cons_erase htc).map _
  refine h2.trans ?_
  rw [List.map_cons]
  have h3 : (Task.order ∘ repositionSpecRow i t.order nb) t = nb := by
    simp only [Function.comp, repositionSpecRow]
    rw [if_pos hi]
  rw [h3]
  refine List.Perm.cons nb ?_
  have h4 : ((tasksIn s t.column_id).erase t).map
      (Task.order ∘ repositionSpecRow i t.order nb) =
      ((tasksIn s t.column_id).erase t).map (rotateShift t.order nb ∘ Task.order) := by
    refine List.map_congr_left ?_
    intro x hx
    have hxmem : x ∈ tasksIn s t.column_id := (List.erase_sublist _ _).mem hx
    have hxt : x ≠ t := by
      intro he
      rw [he] at hx
      have hnd : (tasksIn s t.column_id).Nodup :=
        List.Nodup.of_map Task.id (((List.filter_sublist s.tasks).map Task.id).nodup hn)
      exact (hnd.mem_erase_iff.mp hx).1 rfl
    have hxid : x.id ≠ i := by
      intro he
      refine hxt (List.inj_on_of_nodup_map hn ?_ ht (by rw [he, hi]))
      rw [tasksIn, List.mem_filter] at hxmem
      exact hxmem.1
    simp only [Function.comp, repositionSpecRow]
    rw [if_neg hxid]
  rw [h4, ← List.map_map]
  exact (map_erase_perm Task.order htc).map (rotateShift t.order nb)

/-- Density is preserved by a reorder to a position inside [0, n-1]. -/
theorem reorder_dense_target {s : Store} {i nb : Int} {t : Task}
    (hn : IdsNodup s) (ht : t ∈ s.tasks) (hi : t.id = i)
    (hD : Dense (taskOrders s t.column_id)) (h0 : 0 ≤ nb)
    (hb : nb < ((taskOrders s t.column_id).length : Int)) :
    Dense (taskOrders (TaskRepository.reorder_in_column s i nb).2 t.column_id) := by
  have htc := mem_tasksIn_self ht
  have hmo : t.order ∈ taskOrders s t.column_id := List.mem_map_of_mem Task.order htc
  have hDc : Dense (t.order :: (taskOrders s t.column_id).erase t.order) :=
    hD.perm (List.perm_cons_erase hmo)
  have hlen : ((taskOrders s t.column_id).erase t.order).length =
      (taskOrders s t.column_id).length - 1 := List.length_erase_of_mem hmo
  have hrot : Dense (nb :: ((taskOrders s t.column_id).erase t.order).map
      (rotateShift t.order nb)) := by
    refine dense_rotate hDc h0 ?_
    have hpos : 0 < (taskOrders s t.column_id).length := List.length_pos_of_mem hmo
    rw [hlen]
    push_cast
    omega
  exact hrot.perm (reorder_taskOrders_perm hn ht hi).symm

/-- Reordering a row to its current position is a complete no-op. -/
theorem reorder_self_noop {s : Store} {i : Int} {t : Task}
    (hn : IdsNodup s) (ht : t ∈ s.tasks) (hi : t.id = i) :
    TaskRepository.reorder_in_column s i t.order = (some t, s) := by
  have hret := @reorder_ret_found s i t.order t hn ht hi
  have hstate := @reorder_state_found s i t.order t hn ht hi
  have hmap : s.tasks.map (reorderRow i t.order t) = s.tasks := by
    refine map_eq_self ?_
    intro x hxmem
    unfold reorderRow task_queries.reorderCase task_queries.reorderWhere
    by_cases hxi : x.id = i
    · have hxt : x = t := List.inj_on_of_nodup_map hn hxmem ht (by rw [hxi, hi])
      subst hxt
      split_ifs <;> first
        | rfl
        | (exfalso; omega)
    · simp only [min_def, max_def]
      split_ifs <;> first
        | rfl
        | (exact (task_set_order_self (by omega)).symm)
        | (exfalso; omega)
  have hfix : ({ t with order := t.order } : Task) = t := rfl
  have hs2 : (TaskRepository.reorder_in_column s i t.order).2 = s := by
    have : (TaskRepository.reorder_in_column s i t.order).2 =
        { s with tasks := (TaskRepository.reorder_in_column s i t.order).2.tasks } := rfl
    rw [this, hstate, hmap]
  rw [Prod.ext_iff]
  exact ⟨by rw [hret, hfix], hs2⟩

/-- The reorder UPDATE on the moved row itself. -/
theorem reorderRow_self {i nb : Int} {cur : Task} (hi : cur.id = i) :
    reorderRow i nb cur cur = { cur with order := nb } := by
  unfold reorderRow
  rw [if_pos (reorderWhere_self nb cur)]
  unfold task_queries.reorderCase
  rw [if_pos hi]

/-- The reorder UPDATE on a sibling row of the same container. -/
theorem reorderRow_sibling {i nb : Int} {cur x : Task} (hxi : ¬ x.id = i)
    (hcx : x.column_id = cur.column_id) :
    reorderRow i nb cur x = { x with order := rotateShift cur.order nb x.order } := by
  unfold reorderRow task_queries.reorderCase task_queries.reorderWhere rotateShift
  simp only [min_def, max_def]
  split_ifs <;> first
    | rfl
    | (exact task_set_order_congr (by omega))
    | (exact task_set_order_self (by omega))
    | (exfalso; omega)

/-- Two rows of a dense container with equal order values are equal. -/
theorem orders_injective {s : Store} {c : Int} (hD : Dense (taskOrders s c))
    {x y : Task} (hx : x ∈ tasksIn s c) (hy : y ∈ tasksIn s c)
    (ho : x.order = y.order) : x = y :=
  List.inj_on_of_nodup_map hD.nodup hx hy ho

/-- Round-trip core: repositioning a row of a dense container to b and then
back to its original order restores the entire store (every sibling's
order, not only the moved row), and the second call returns the original
row. -/
theorem reorder_roundtrip {s : Store} {i b : Int} {t : Task}
    (hn : IdsNodup s) (ht : t ∈ s.tasks) (hi : t.id = i)
    (hD : Dense (taskOrders s t.column_id)) :
    (TaskRepository.reorder_in_column
      (TaskRepository.reorder_in_column s i b).2 i t.order).2 = s ∧
    (TaskRepository.reorder_in_column
      (TaskRepository.reorder_in_column s i b).2 i t.order).1 = some t := by
  have hs1tasks := @reorder_state_found s i b t hn ht hi
  have hids : (TaskRepository.reorder_in_column s i b).2.tasks.map Task.id =
      s.tasks.map Task.id := by
    rw [hs1tasks, List.map_map]
    exact List.map_congr_left fun x _ => reorderRow_id i b t x
  have hn1 : IdsNodup (TaskRepository.reorder_in_column s i b).2 := by
    show ((TaskRepository.reorder_in_column s i b).2.tasks.map Task.id).Nodup
    rw [hids]
    exact hn
  have ht1 : ({ t with order := b } : Task) ∈
      (TaskRepository.reorder_in_column s i b).2.tasks := by
    rw [hs1tasks, ← reorderRow_self hi]
    exact List.mem_map_of_mem _ ht
  have hi1 : ({ t with order := b } : Task).id = i := hi
  have hstate2 := @reorder_state_found (TaskRepository.reorder_in_column s i b).2 i
    t.order { t with order := b } hn1 ht1 hi1
  have hcomp : (TaskRepository.reorder_in_column s i b).2.tasks.map
      (reorderRow i t.order { t with order := b }) = s.tasks := by
    rw [hs1tasks, List.map_map]
    refine map_eq_self ?_
    intro x hxmem
    simp only [Function.comp]
    by_cases hxi : x.id = i
    · have hxt : x = t := List.inj_on_of_nodup_map hn hxmem ht (by rw [hxi, hi])
      rw [hxt, reorderRow_self hi, reorderRow_self hi1]
    · by_cases hcx : x.column_id = t.column_id
      · have hxinc : x ∈ tasksIn s t.column_id := by
          rw [tasksIn, List.mem_filter]
          exact ⟨hxmem, by simp [hcx]⟩
        have ho : x.order ≠ t.order := by
          intro he
          exact hxi ((orders_injective hD hxinc (mem_tasksIn_self ht) he) ▸ hi)
        have hx2 := @reorderRow_sibling i t.order ({ t with order := b } : Task)
          ({ x with order := rotateShift t.order b x.order } : Task) hxi hcx
        rw [reorderRow_sibling hxi hcx, hx2]
        show ({ x with order := rotateShift b t.order (rotateShift t.order b x.order) } : Task) = x
        rw [rotateShift_inv ho]
      · rw [reorderRow_other_col i b t hcx,
          reorderRow_other_col i t.order { t with order := b } hcx]
  refine ⟨?_, ?_⟩
  · have : (TaskRepository.reorder_in_column
        (TaskRepository.reorder_in_column s i b).2 i t.order).2 =
        { s with tasks := (TaskRepository.reorder_in_column
          (TaskRepository.reorder_in_column s i b).2 i t.order).2.tasks } := rfl
    rw [this, hstate2, hcomp]
  · have hret := @reorder_ret_found (TaskRepository.reorder_in_column s i b).2 i
      t.order { t with order := b } hn1 ht1 hi1
    rw [hret]

/-! ### Characterization of TaskRepository.delete -/

theorem filter_erase_comm {l : List Task} {t : Task} {c : Int} (hnd : l.Nodup) :
    (l.erase t).filter (fun x => x.column_id == c) =
      (l.filter (fun x => x.column_id == c)).erase t := by
  rw [List.Nodup.erase_eq_filter hnd t,
    List.Nodup.erase_eq_filter (hnd.filter _) t, List.filter_filter, List.filter_filter]
  exact List.filter_congr fun x _ => Bool.and_comm _ _

theorem filter_erase_other {l : List Task} {t : Task} {c : Int} (hnd : l.Nodup)
    (hc : t.column_id ≠ c) :
    (l.erase t).filter (fun x => x.column_id == c) =
      l.filter (fun x => x.column_id == c) := by
  rw [List.Nodup.erase_eq_filter hnd t, List.filter_filter]
  refine List.filter_congr ?_
  intro x _
  by_cases hx : x = t
  · subst hx
    simp [hc]
  · simp [hx]

/-- The found branch of delete, in closed form: the row is removed, then
its old column is shifted down past its old order. -/
theorem delete_found {s : Store} {i : Int} {t : Task}
    (hn : IdsNodup s) (ht : t ∈ s.tasks) (hi : t.id = i) :
    TaskRepository.delete s i =
      (true, { s with tasks :=
        task_queries.SHIFT_TASKS_DOWN_IN_COLUMN (s.tasks.erase t) t.column_id t.order }) := by
  have hnd : s.tasks.Nodup := List.Nodup.of_map Task.id hn
  unfold TaskRepository.delete TaskRepository.get_by_id task_queries.DELETE_TASK
  rw [find?_key_eq_some Task.id hn ht hi, filter_key_eq_single Task.id hn ht hi,
    filter_key_ne_eq_erase Task.id hn ht hi]
  rfl

/-- In the deleted row's container: the row disappears, siblings above it
move down by one, siblings below it are untouched. -/
theorem delete_tasksIn_target {s : Store} {i : Int} {t : Task}
    (hn : IdsNodup s) (ht : t ∈ s.tasks) (hi : t.id = i) :
    tasksIn (TaskRepository.delete s i).2 t.column_id =
      ((tasksIn s t.column_id).erase t).map
        (fun x => if t.order < x.order then { x with order := x.order - 1 } else x) := by
  have hnd : s.tasks.Nodup := List.Nodup.of_map Task.id hn
  rw [delete_found hn ht hi]
  show (task_queries.SHIFT_TASKS_DOWN_IN_COLUMN (s.tasks.erase t)
    t.column_id t.order).filter (fun x => x.column_id == t.column_id) = _
  unfold task_queries.SHIFT_TASKS_DOWN_IN_COLUMN
  rw [filter_col_map_comm _ (fun x => by split_ifs <;> rfl), filter_erase_comm hnd]
  refine List.map_congr_left ?_
  intro x hx
  have hxc : x.column_id = t.column_id := by
    have hmem := (List.erase_sublist t (s.tasks.filter (fun x => x.column_id == t.column_id))).mem hx
    rw [List.mem_filter] at hmem
    simpa using hmem.2
  simp [hxc]

theorem delete_tasksIn_other {s : Store} {i : Int} {t : Task} {c : Int}
    (hn : IdsNodup s) (ht : t ∈ s.tasks) (hi : t.id = i) (hc : c ≠ t.column_id) :
    tasksIn (TaskRepository.delete s i).2 c = tasksIn s c := by
  have hnd : s.tasks.Nodup := List.Nodup.of_map Task.id hn
  rw [delete_found hn ht hi]
  show (task_queries.SHIFT_TASKS_DOWN_IN_COLUMN (s.tasks.erase t)
    t.column_id t.order).filter (fun x => x.column_id == c) = _
  unfold task_queries.SHIFT_TASKS_DOWN_IN_COLUMN
  rw [filter_col_map_other (fun x => by split_ifs <;> rfl)
      (fun x hcol => by
        split_ifs with h
        · exact absurd h.1 hcol
        · rfl) _ hc,
    filter_erase_other hnd (fun h => hc h.symm)]
  rfl

/-- Density of the deleted row's container after delete, with the new size. -/
theorem delete_dense_target {s : Store} {i : Int} {t : Task}
    (hn : IdsNodup s) (ht : t ∈ s.tasks) (hi : t.id = i)
    (hD : Dense (taskOrders s t.column_id)) :
    Dense (taskOrders (TaskRepository.delete s i).2 t.column_id) ∧
    (taskOrders (TaskRepository.delete s i).2 t.column_id).length =
      (taskOrders s t.column_id).length - 1 := by
  have htc := mem_tasksIn_self ht
  have hmo : t.order ∈ taskOrders s t.column_id := List.mem_map_of_mem Task.order htc
  have horders : taskOrders (TaskRepository.delete s i).2 t.column_id =
      ((tasksIn s t.column_id).erase t).map (downShift t.order ∘ Task.order) := by
    rw [taskOrders, delete_tasksIn_target hn ht hi, List.map_map]
    refine List.map_congr_left ?_
    intro x _
    simp only [Function.comp]
    unfold downShift
    split_ifs <;> rfl
  have hperm : (taskOrders (TaskRepository.delete s i).2 t.column_id).Perm
      (((taskOrders s t.column_id).erase t.order).map (downShift t.order)) := by
    rw [horders, ← List.map_map]
    exact (map_erase_perm Task.order htc).map (downShift t.order)
  have hDc : Dense (t.order :: (taskOrders s t.column_id).erase t.order) :=
    hD.perm (List.perm_cons_erase hmo)
  refine ⟨(dense_remove hDc).perm hperm.symm, ?_⟩
  rw [hperm.length_eq]
  simp [List.length_erase_of_mem hmo]

/-! ### Characterization of TaskRepository.move_to_column (distinct target) -/

/-- The row written by MOVE_TASK_TO_COLUMN. -/
def movedTask (t : Task) (targetCol p : Int) : Task :=
  { t with column_id := targetCol, order := p }

section MoveAnalysis

variable {s : Store} {i targetCol p : Int} {t : Task}

theorem move_tasks1_ids (s : Store) (targetCol p : Int) :
    (task_queries.SHIFT_TASKS_UP_IN_COLUMN s.tasks targetCol p).map Task.id =
      s.tasks.map Task.id := by
  unfold task_queries.SHIFT_TASKS_UP_IN_COLUMN
  rw [List.map_map]
  exact List.map_congr_left fun x _ => by
    simp only [Function.comp]
    split_ifs <;> rfl

theorem move_t_mem_tasks1 (ht : t ∈ s.tasks) (hcol : t.column_id ≠ targetCol) :
    t ∈ task_queries.SHIFT_TASKS_UP_IN_COLUMN s.tasks targetCol p := by
  unfold task_queries.SHIFT_TASKS_UP_IN_COLUMN
  have heq : (fun x => if x.column_id = targetCol ∧ p ≤ x.order then
      { x with order := x.order + 1 } else x) t = t := by
    show (if t.column_id = targetCol ∧ p ≤ t.order then
      ({ t with order := t.order + 1 } : Task) else t) = t
    rw [if_neg]
    intro h
    exact hcol h.1
  rw [← heq]
  exact List.mem_map_of_mem _ ht

/-- The distinct-column branch of move_to_column: the store's task table
after the three statements. -/
theorem move_state_found (hn : IdsNodup s) (ht : t ∈ s.tasks) (hi : t.id = i)
    (hcol : ¬ t.column_id = targetCol) :
    (TaskRepository.move_to_column s i targetCol p).2.tasks =
      task_queries.SHIFT_TASKS_DOWN_IN_COLUMN
        ((task_queries.MOVE_TASK_TO_COLUMN
          (task_queries.SHIFT_TASKS_UP_IN_COLUMN s.tasks targetCol p) i targetCol p).1)
        t.column_id t.order := by
  unfold TaskRepository.move_to_column TaskRepository.get_by_id
  simp only [find?_key_eq_some Task.id hn ht hi]
  rw [if_neg hcol]

/-- The row returned by the distinct-column branch of move_to_column. -/
theorem move_ret_found (hn : IdsNodup s) (ht : t ∈ s.tasks) (hi : t.id = i)
    (hcol : ¬ t.column_id = targetCol) :
    (TaskRepository.move_to_column s i targetCol p).1 = some (movedTask t targetCol p) := by
  unfold TaskRepository.move_to_column TaskRepository.get_by_id
  simp only [find?_key_eq_some Task.id hn ht hi]
  rw [if_neg hcol]
  show ((task_queries.MOVE_TASK_TO_COLUMN
    (task_queries.SHIFT_TASKS_UP_IN_COLUMN s.tasks targetCol p) i targetCol p).2).head? = _
  unfold task_queries.MOVE_TASK_TO_COLUMN
  have hn1 : ((task_queries.SHIFT_TASKS_UP_IN_COLUMN s.tasks targetCol p).map Task.id).Nodup := by
    rw [move_tasks1_ids]
    exact hn
  rw [filter_key_eq_single Task.id hn1 (move_t_mem_tasks1 ht hcol) hi]
  rfl

/-- The task table after the second statement of the move, as a multiset:
the rewritten row plus the (up-shifted) remainder, whose rows keep their
identity because their ids differ from the moved one. -/
theorem move_tasks2_perm (hn : IdsNodup s) (ht : t ∈ s.tasks) (hi : t.id = i)
    (hcol : ¬ t.column_id = targetCol) :
    ((task_queries.MOVE_TASK_TO_COLUMN
        (task_queries.SHIFT_TASKS_UP_IN_COLUMN s.tasks targetCol p) i targetCol p).1).Perm
      (movedTask t targetCol p ::
        (task_queries.SHIFT_TASKS_UP_IN_COLUMN s.tasks targetCol p).erase t) := by
  have hn1 : ((task_queries.SHIFT_TASKS_UP_IN_COLUMN s.tasks targetCol p).map Task.id).Nodup := by
    rw [move_tasks1_ids]
    exact hn
  have htm := @move_t_mem_tasks1 s targetCol p t ht hcol
  unfold task_queries.MOVE_TASK_TO_COLUMN
  have hperm := (List.perm_cons_erase htm).map
    (fun x => if x.id = i then { x with column_id := targetCol, order := p } else x)
  refine hperm.trans ?_
  rw [List.map_cons, if_pos hi]
  refine List.Perm.cons _ ?_
  rw [map_eq_self ?_]
  intro x hx
  have hxid : x.id ≠ i := by
    intro he
    have hxmem := (List.erase_sublist t _).mem hx
    have hxt : x = t := List.inj_on_of_nodup_map hn1 hxmem htm (by rw [he, hi])
    rw [hxt] at hx
    exact (List.Nodup.of_map Task.id hn1).not_mem_erase hx
  rw [if_neg hxid]

/-- After the move, the target container is (as a multiset) the moved row
at order p together with the original rows shifted up at p. -/
theorem move_tasksIn_target (hn : IdsNodup s) (ht : t ∈ s.tasks) (hi : t.id = i)
    (hcol : ¬ t.column_id = targetCol) :
    (tasksIn (TaskRepository.move_to_column s i targetCol p).2 targetCol).Perm
      (movedTask t targetCol p ::
        (tasksIn s targetCol).map
          (fun x => if p ≤ x.order then { x with order := x.order + 1 } else x)) := by
  have hn1 : ((task_queries.SHIFT_TASKS_UP_IN_COLUMN s.tasks targetCol p).map Task.id).Nodup := by
    rw [move_tasks1_ids]
    exact hn
  have hnd1 : (task_queries.SHIFT_TASKS_UP_IN_COLUMN s.tasks targetCol p).Nodup :=
    List.Nodup.of_map Task.id hn1
  have hstate := @move_state_found s i targetCol p t hn ht hi hcol
  have e1 : tasksIn (TaskRepository.move_to_column s i targetCol p).2 targetCol =
      ((task_queries.MOVE_TASK_TO_COLUMN
          (task_queries.SHIFT_TASKS_UP_IN_COLUMN s.tasks targetCol p) i targetCol p).1.filter
        (fun x => x.column_id == targetCol)).map
        (fun x => if x.column_id = t.column_id ∧ t.order < x.order then
          { x with order := x.order - 1 } else x) := by
    rw [tasksIn, hstate]
    unfold task_queries.SHIFT_TASKS_DOWN_IN_COLUMN
    rw [filter_col_map_comm _ (fun x => by split_ifs <;> rfl)]
  have e3 : (task_queries.SHIFT_TASKS_UP_IN_COLUMN s.tasks targetCol p).filter
      (fun x => x.column_id == targetCol) =
      (tasksIn s targetCol).map (fun x => if p ≤ x.order then
        { x with order := x.order + 1 } else x) := by
    unfold task_queries.SHIFT_TASKS_UP_IN_COLUMN tasksIn
    rw [filter_col_map_comm _ (fun x => by split_ifs <;> rfl)]
    refine List.map_congr_left ?_
    intro x hx
    rw [List.mem_filter] at hx
    have hxc : x.column_id = targetCol := by simpa using hx.2
    simp [hxc]
  have e2 : ((task_queries.MOVE_TASK_TO_COLUMN
        (task_queries.SHIFT_TASKS_UP_IN_COLUMN s.tasks targetCol p) i targetCol p).1.filter
      (fun x => x.column_id == targetCol)).Perm
      (movedTask t targetCol p ::
        (tasksIn s targetCol).map (fun x => if p ≤ x.order then
          { x with order := x.order + 1 } else x)) := by
    refine ((move_tasks2_perm hn ht hi hcol).filter _).trans ?_
    rw [List.filter_cons_of_pos (by simp [movedTask]), filter_erase_other hnd1 hcol, e3]
  have e4 : ∀ x ∈ movedTask t targetCol p ::
      (tasksIn s targetCol).map (fun x => if p ≤ x.order then
        { x with order := x.order + 1 } else x),
      (fun x => if x.column_id = t.column_id ∧ t.order < x.order then
        { x with order := x.order - 1 } else x) x = x := by
    intro x hx
    rcases List.mem_cons.mp hx with rfl | hx2
    · show (if (movedTask t targetCol p).column_id = t.column_id ∧ _ then _ else _) = _
      rw [if_neg]
      intro h
      exact hcol (((rfl : (movedTask t targetCol p).column_id = targetCol)).symm.trans h.1).symm
    · rw [List.mem_map] at hx2
      obtain ⟨y, hy, rfl⟩ := hx2
      rw [tasksIn, List.mem_filter] at hy
      have hyc : y.column_id = targetCol := by simpa using hy.2
      have hcy : (if p ≤ y.order then ({ y with order := y.order + 1 } : Task) else y).column_id
          = targetCol := by
        split_ifs <;> simpa using hyc
      show (if _ ∧ _ then _ else _) = _
      rw [if_neg]
      intro h
      exact hcol (hcy.symm.trans h.1).symm
  rw [e1]
  refine (e2.map _).trans ?_
  rw [map_eq_self e4]

/-- Orders of the target container after a move: the requested position
plus the up-shifted original orders. -/
theorem move_taskOrders_target (hn : IdsNodup s) (ht : t ∈ s.tasks) (hi : t.id = i)
    (hcol : ¬ t.column_id = targetCol) :
    (taskOrders (TaskRepository.move_to_column s i targetCol p).2 targetCol).Perm
      (p :: (taskOrders s targetCol).map (upShift p)) := by
  have h1 := (@move_tasksIn_target s i targetCol p t hn ht hi hcol).map Task.order
  refine h1.trans ?_
  rw [List.map_cons]
  refine List.Perm.of_eq ?_
  congr 1
  rw [List.map_map, taskOrders, List.map_map]
  refine List.map_congr_left ?_
  intro x _
  simp only [Function.comp, upShift]
  split_ifs <;> rfl

/-- After the move, the source container is (as a multiset) its original
rows minus the moved one, shifted down past the vacated order. -/
theorem move_tasksIn_source (hn : IdsNodup s) (ht : t ∈ s.tasks) (hi : t.id = i)
    (hcol : ¬ t.column_id = targetCol) :
    (tasksIn (TaskRepository.move_to_column s i targetCol p).2 t.column_id).Perm
      (((tasksIn s t.column_id).erase t).map
        (fun x => if t.order < x.order then { x with order := x.order - 1 } else x)) := by
  have hn1 : ((task_queries.SHIFT_TASKS_UP_IN_COLUMN s.tasks targetCol p).map Task.id).Nodup := by
    rw [move_tasks1_ids]
    exact hn
  have hnd1 : (task_queries.SHIFT_TASKS_UP_IN_COLUMN s.tasks targetCol p).Nodup :=
    List.Nodup.of_map Task.id hn1
  have hstate := @move_state_found s i targetCol p t hn ht hi hcol
  have e1 : tasksIn (TaskRepository.move_to_column s i targetCol p).2 t.column_id =
      ((task_queries.MOVE_TASK_TO_COLUMN
          (task_queries.SHIFT_TASKS_UP_IN_COLUMN s.tasks targetCol p) i targetCol p).1.filter
        (fun x => x.column_id == t.column_id)).map
        (fun x => if x.column_id = t.column_id ∧ t.order < x.order then
          { x with order := x.order - 1 } else x) := by
    rw [tasksIn, hstate]
    unfold task_queries.SHIFT_TASKS_DOWN_IN_COLUMN
    rw [filter_col_map_comm _ (fun x => by split_ifs <;> rfl)]
  have e3 : (task_queries.SHIFT_TASKS_UP_IN_COLUMN s.tasks targetCol p).filter
      (fun x => x.column_id == t.column_id) = tasksIn s t.column_id := by
    unfold task_queries.SHIFT_TASKS_UP_IN_COLUMN tasksIn
    exact filter_col_map_other (fun x => by split_ifs <;> rfl)
      (fun x hx => by
        split_ifs with h
        · exact absurd h.1 hx
        · rfl) _ hcol
  have e2 : ((task_queries.MOVE_TASK_TO_COLUMN
        (task_queries.SHIFT_TASKS_UP_IN_COLUMN s.tasks targetCol p) i targetCol p).1.filter
      (fun x => x.column_id == t.column_id)).Perm ((tasksIn s t.column_id).erase t) := by
    refine ((move_tasks2_perm hn ht hi hcol).filter _).trans ?_
    rw [List.filter_cons_of_neg (by simp [movedTask]; exact fun h => hcol h.symm),
      filter_erase_comm hnd1, e3]
  rw [e1]
  refine (e2.map _).trans ?_
  refine List.Perm.of_eq (List.map_congr_left ?_)
  intro x hx
  have hxc : x.column_id = t.column_id := by
    have hmem := (List.erase_sublist t (tasksIn s t.column_id)).mem hx
    rw [tasksIn, List.mem_filter] at hmem
    simpa using hmem.2
  simp [hxc]

/-- A move leaves every container other than the source and the target
untouched (as a multiset). -/
theorem move_tasksIn_other (hn : IdsNodup s) (ht : t ∈ s.tasks) (hi : t.id = i)
    (hcol : ¬ t.column_id = targetCol) {c : Int} (hcs : c ≠ t.column_id)
    (hct : c ≠ targetCol) :
    (tasksIn (TaskRepository.move_to_column s i targetCol p).2 c).Perm (tasksIn s c) := by
  have hn1 : ((task_queries.SHIFT_TASKS_UP_IN_COLUMN s.tasks targetCol p).map Task.id).Nodup := by
    rw [move_tasks1_ids]
    exact hn
  have hnd1 : (task_queries.SHIFT_TASKS_UP_IN_COLUMN s.tasks targetCol p).Nodup :=
    List.Nodup.of_map Task.id hn1
  have hstate := @move_state_found s i targetCol p t hn ht hi hcol
  have e1 : tasksIn (TaskRepository.move_to_column s i targetCol p).2 c =
      ((task_queries.MOVE_TASK_TO_COLUMN
          (task_queries.SHIFT_TASKS_UP_IN_COLUMN s.tasks targetCol p) i targetCol p).1.filter
        (fun x => x.column_id == c)).map
        (fun x => if x.column_id = t.column_id ∧ t.order < x.order then
          { x with order := x.order - 1 } else x) := by
    rw [tasksIn, hstate]
    unfold task_queries.SHIFT_TASKS_DOWN_IN_COLUMN
    rw [filter_col_map_comm _ (fun x => by split_ifs <;> rfl)]
  have e3 : (task_queries.SHIFT_TASKS_UP_IN_COLUMN s.tasks targetCol p).filter
      (fun x => x.column_id == c) = tasksIn s c := by
    unfold task_queries.SHIFT_TASKS_UP_IN_COLUMN tasksIn
    exact filter_col_map_other (fun x => by split_ifs <;> rfl)
      (fun x hx => by
        split_ifs with h
        · exact absurd h.1 hx
        · rfl) _ hct
  have e2 : ((task_queries.MOVE_TASK_TO_COLUMN
        (task_queries.SHIFT_TASKS_UP_IN_COLUMN s.tasks targetCol p) i targetCol p).1.filter
      (fun x => x.column_id == c)).Perm (tasksIn s c) := by
    refine ((move_tasks2_perm hn ht hi hcol).filter _).trans ?_
    rw [List.filter_cons_of_neg (by simp [movedTask]; exact fun h => hct h.symm),
      filter_erase_other hnd1 (fun h => hcs h.symm), e3]
  rw [e1]
  refine (e2.map _).trans ?_
  refine List.Perm.of_eq (map_eq_self ?_)
  intro x hx
  rw [tasksIn, List.mem_filter] at hx
  have hxc : x.column_id = c := by simpa using hx.2
  rw [if_neg]
  intro h
  exact hcs (hxc.symm.trans h.1)

/-- Density of the target container after a move into a different column,
for 0 ≤ p ≤ its size, with the new size. -/
theorem move_dense_target (hn : IdsNodup s) (ht : t ∈ s.tasks) (hi : t.id = i)
    (hcol : ¬ t.column_id = targetCol) (hD : Dense (taskOrders s targetCol))
    (h0 : 0 ≤ p) (hp : p ≤ ((taskOrders s targetCol).length : Int)) :
    Dense (taskOrders (TaskRepository.move_to_column s i targetCol p).2 targetCol) ∧
    (taskOrders (TaskRepository.move_to_column s i targetCol p).2 targetCol).length =
      (taskOrders s targetCol).length + 1 := by
  have hperm := @move_taskOrders_target s i targetCol p t hn ht hi hcol
  have hins : Dense ((taskOrders s targetCol).map (upShift p) ++ [p]) :=
    dense_insert hD h0 hp
  have hpc : ((taskOrders s targetCol).map (upShift p) ++ [p]).Perm
      (p :: (taskOrders s targetCol).map (upShift p)) :=
    List.perm_append_singleton _ _
  refine ⟨(hins.perm hpc).perm hperm.symm, ?_⟩
  rw [hperm.length_eq]
  simp

/-- Density of the source container after a move out of it, with the new
size. -/
theorem move_dense_source (hn : IdsNodup s) (ht : t ∈ s.tasks) (hi : t.id = i)
    (hcol : ¬ t.column_id = targetCol) (hD : Dense (taskOrders s t.column_id)) :
    Dense (taskOrders (TaskRepository.move_to_column s i targetCol p).2 t.column_id) ∧
    (taskOrders (TaskRepository.move_to_column s i targetCol p).2 t.column_id).length =
      (taskOrders s t.column_id).length - 1 := by
  have htc := mem_tasksIn_self ht
  have hmo : t.order ∈ taskOrders s t.column_id := List.mem_map_of_mem Task.order htc
  have h1 := (@move_tasksIn_source s i targetCol p t hn ht hi hcol).map Task.order
  have h2 : ((((tasksIn s t.column_id).erase t).map
      (fun x => if t.order < x.order then { x with order := x.order - 1 } else x)).map
        Task.order) =
      (((tasksIn s t.column_id).erase t).map Task.order).map (downShift t.order) := by
    rw [List.map_map, List.map_map]
    refine List.map_congr_left ?_
    intro x _
    simp only [Function.comp, downShift]
    split_ifs <;> rfl
  rw [h2] at h1
  have h3 : ((((tasksIn s t.column_id).erase t).map Task.order).map
      (downShift t.order)).Perm
      (((taskOrders s t.column_id).erase t.order).map (downShift t.order)) :=
    (map_erase_perm Task.order htc).map (downShift t.order)
  have hDc : Dense (t.order :: (taskOrders s t.column_id).erase t.order) :=
    hD.perm (List.perm_cons_erase hmo)
  refine ⟨((dense_remove hDc).perm h3.symm).perm h1.symm, ?_⟩
  have hlen := (h1.trans h3).length_eq
  rw [List.length_map, List.length_map] at hlen
  show (List.map Task.order
    (tasksIn (TaskRepository.move_to_column s i targetCol p).2 t.column_id)).length = _
  rw [List.length_map, hlen, List.length_erase_of_mem hmo]

theorem move_columns_eq (s : Store) (i targetCol p : Int) :
    (TaskRepository.move_to_column s i targetCol p).2.columns = s.columns := by
  unfold TaskRepository.move_to_column TaskRepository.get_by_id
  cases hf : s.tasks.find? (fun x => x.id == i) with
  | none => rfl
  | some t' =>
    by_cases hc : t'.column_id = targetCol
    · simp only [hf, if_pos hc]
      rfl
    · simp only [hf, if_neg hc]

end MoveAnalysis

/-! ### Characterization of TaskRepository.update -/

/-- When the effective order is unchanged, update writes title and
description (and the unchanged order) through UPDATE_TASK and returns the
updated row. -/
theorem update_found_same {s : Store} {i : Int} {u : TaskUpdate} {t : Task}
    (hn : IdsNodup s) (ht : t ∈ s.tasks) (hi : t.id = i)
    (hord : u.order.getD t.order = t.order) :
    TaskRepository.update s i u =
      (some { t with
          title := u.title.getD t.title
          description := u.description.getD t.description
          order := u.order.getD t.order },
        { s with tasks := s.tasks.map fun x =>
          if x.id = i then
            { x with
              title := u.title.getD t.title
              description := u.description.getD t.description
              order := u.order.getD t.order }
          else x }) := by
  unfold TaskRepository.update TaskRepository.get_by_id task_queries.UPDATE_TASK
  simp only [find?_key_eq_some Task.id hn ht hi]
  rw [if_neg (by simp [hord])]
  rw [filter_key_eq_single Task.id hn ht hi]
  rfl

/-- When the effective order differs, update is exactly a delegation to
reorder_in_column; the title and description of the payload are not
written. -/
theorem update_found_diff {s : Store} {i : Int} {u : TaskUpdate} {t : Task}
    (hn : IdsNodup s) (ht : t ∈ s.tasks) (hi : t.id = i)
    (hord : u.order.getD t.order ≠ t.order) :
    TaskRepository.update s i u =
      TaskRepository.reorder_in_column s i (u.order.getD t.order) := by
  unfold TaskRepository.update TaskRepository.get_by_id
  simp only [find?_key_eq_some Task.id hn ht hi]
  rw [if_pos (by simpa using hord)]

/-- The same-order branch of update changes no order value in any
container. -/
theorem update_same_taskOrders {s : Store} {i : Int} {u : TaskUpdate} {t : Task}
    (hn : IdsNodup s) (ht : t ∈ s.tasks) (hi : t.id = i)
    (hord : u.order.getD t.order = t.order) (c : Int) :
    taskOrders (TaskRepository.update s i u).2 c = taskOrders s c := by
  rw [update_found_same hn ht hi hord]
  show ((s.tasks.map _).filter (fun x => x.column_id == c)).map Task.order = _
  rw [filter_col_map_comm _ (fun x => by split_ifs <;> rfl), List.map_map]
  refine List.map_congr_left ?_
  intro x hx
  rw [List.mem_filter] at hx
  simp only [Function.comp]
  by_cases hxi : x.id = i
  · have hxt : x = t := List.inj_on_of_nodup_map hn hx.1 ht (by rw [hxi, hi])
    rw [if_pos hxi]
    show u.order.getD t.order = x.order
    rw [hord, hxt]
  · rw [if_neg hxi]

theorem update_columns_eq (s : Store) (i : Int) (u : TaskUpdate) :
    (TaskRepository.update s i u).2.columns = s.columns := by
  unfold TaskRepository.update TaskRepository.get_by_id
  cases hf : s.tasks.find? (fun x => x.id == i) with
  | none => rfl
  | some t' =>
    simp only [hf]
    by_cases hc : u.order.getD t'.order ≠ t'.order
    · rw [if_pos hc]
      exact reorder_columns_eq s i _
    · rw [if_neg hc]

/-! ### Not-found behaviour of every task-store operation -/

theorem update_not_found {s : Store} {i : Int} (u : TaskUpdate)
    (h : ∀ x ∈ s.tasks, x.id ≠ i) :
    TaskRepository.update s i u = (none, s) := by
  unfold TaskRepository.update TaskRepository.get_by_id
  rw [find?_key_eq_none Task.id h]

theorem delete_not_found {s : Store} {i : Int} (h : ∀ x ∈ s.tasks, x.id ≠ i) :
    TaskRepository.delete s i = (false, s) := by
  unfold TaskRepository.delete TaskRepository.get_by_id
  rw [find?_key_eq_none Task.id h]

theorem reorder_not_found {s : Store} {i nb : Int} (h : ∀ x ∈ s.tasks, x.id ≠ i) :
    TaskRepository.reorder_in_column s i nb = (none, s) := by
  unfold TaskRepository.reorder_in_column task_queries.REORDER_TASK_IN_COLUMN
  rw [find?_key_eq_none Task.id h]
  rfl

theorem move_not_found {s : Store} {i targetCol nb : Int}
    (h : ∀ x ∈ s.tasks, x.id ≠ i) :
    TaskRepository.move_to_column s i targetCol nb = (none, s) := by
  unfold TaskRepository.move_to_column TaskRepository.get_by_id
  rw [find?_key_eq_none Task.id h]

/-! ### Characterization of the ColumnRepository operations -/

theorem col_set_order_congr {x : Column} {v w : Int} (h : v = w) :
    ({ x with order := v } : Column) = { x with order := w } := by
  rw [h]

theorem col_set_order_self {x : Column} {w : Int} (h : w = x.order) :
    x = { x with order := w } := by
  rw [h]

/-- The row transformation of the column reorder UPDATE, given the found
row. -/
def reorderColRow (i newOrder : Int) (cur : Column) (c : Column) : Column :=
  if column_queries.reorderWhere newOrder cur c then
    column_queries.reorderCase i newOrder cur.order c
  else c

theorem reorderColRow_id (i nb : Int) (cur c : Column) :
    (reorderColRow i nb cur c).id = c.id := by
  unfold reorderColRow column_queries.reorderCase
  split_ifs <;> rfl

theorem reorderColWhere_self (nb : Int) (cur : Column) :
    column_queries.reorderWhere nb cur cur :=
  ⟨min_le_right _ _, le_max_right _ _⟩

theorem reorderColRow_self {i nb : Int} {cur : Column} (hi : cur.id = i) :
    reorderColRow i nb cur cur = { cur with order := nb } := by
  unfold reorderColRow
  rw [if_pos (reorderColWhere_self nb cur)]
  unfold column_queries.reorderCase
  rw [if_pos hi]

theorem reorderColRow_sibling {i nb : Int} {cur x : Column} (hxi : ¬ x.id = i) :
    reorderColRow i nb cur x = { x with order := rotateShift cur.order nb x.order } := by
  unfold reorderColRow column_queries.reorderCase column_queries.reorderWhere rotateShift
  simp only [min_def, max_def]
  split_ifs <;> first
    | rfl
    | (exact col_set_order_congr (by omega))
    | (exact col_set_order_self (by omega))
    | (exfalso; omega)

theorem col_reorder_state_found {s : Store} {i nb : Int} {c : Column}
    (hn : ColIdsNodup s) (hc : c ∈ s.columns) (hi : c.id = i) :
    (ColumnRepository.reorder s i nb).2.columns = s.columns.map (reorderColRow i nb c) := by
  unfold ColumnRepository.reorder column_queries.REORDER_COLUMN
  rw [find?_key_eq_some Column.id hn hc hi]
  rfl

theorem col_reorder_ret_found {s : Store} {i nb : Int} {c : Column}
    (hn : ColIdsNodup s) (hc : c ∈ s.columns) (hi : c.id = i) :
    (ColumnRepository.reorder s i nb).1 = some { c with order := nb } := by
  unfold ColumnRepository.reorder column_queries.REORDER_COLUMN
  rw [find?_key_eq_some Column.id hn hc hi]
  have hrows : (((s.columns.filter
        (fun x => decide (column_queries.reorderWhere nb c x))).map
          (column_queries.reorderCase i nb c.order)).map Column.id).Nodup := by
    rw [List.map_map]
    have heq : (Column.id ∘ column_queries.reorderCase i nb c.order) = Column.id := by
      funext x
      simp only [Function.comp]
      unfold column_queries.reorderCase
      split_ifs <;> rfl
    rw [heq]
    exact ((List.filter_sublist s.columns).map Column.id).nodup hn
  have hmem : c ∈ s.columns.filter (fun x => decide (column_queries.reorderWhere nb c x)) := by
    rw [List.mem_filter]
    exact ⟨hc, by simp [reorderColWhere_self]⟩
  have hmem2 := List.mem_map_of_mem (column_queries.reorderCase i nb c.order) hmem
  have hcase : column_queries.reorderCase i nb c.order c = { c with order := nb } := by
    unfold column_queries.reorderCase
    rw [if_pos hi]
  rw [hcase] at hmem2
  exact find?_key_eq_some Column.id hrows hmem2 hi

theorem col_reorder_tasks_eq (s : Store) (i nb : Int) :
    (ColumnRepository.reorder s i nb).2.tasks = s.tasks := rfl

/-- Orders of the columns container after a reorder, as a multiset. -/
theorem col_reorder_orders_perm {s : Store} {i nb : Int} {c : Column}
    (hn : ColIdsNodup s) (hc : c ∈ s.columns) (hi : c.id = i) :
    (columnOrders (ColumnRepository.reorder s i nb).2).Perm
      (nb :: ((columnOrders s).erase c.order).map (rotateShift c.order nb)) := by
  have h1 : columnOrders (ColumnRepository.reorder s i nb).2 =
      s.columns.map (Column.order ∘ reorderColRow i nb c) := by
    rw [columnOrders, col_reorder_state_found hn hc hi, List.map_map]
  rw [h1]
  have h2 : (s.columns.map (Column.order ∘ reorderColRow i nb c)).Perm
      ((c :: s.columns.erase c).map (Column.order ∘ reorderColRow i nb c)) :=
    (List.perm_cons_erase hc).map _
  refine h2.trans ?_
  rw [List.map_cons]
  have h3 : (Column.order ∘ reorderColRow i nb c) c = nb := by
    simp only [Function.comp]
    rw [reorderColRow_self hi]
  rw [h3]
  refine List.Perm.cons nb ?_
  have h4 : (s.columns.erase c).map (Column.order ∘ reorderColRow i nb c) =
      (s.columns.erase c).map (rotateShift c.order nb ∘ Column.order) := by
    refine List.map_congr_left ?_
    intro x hx
    have hxid : x.id ≠ i := by
      intro he
      have hxmem := (List.erase_sublist c s.columns).mem hx
      have hxc : x = c := List.inj_on_of_nodup_map hn hxmem hc (by rw [he, hi])
      rw [hxc] at hx
      exact (List.Nodup.of_map Column.id hn).not_mem_erase hx
    simp only [Function.comp]
    rw [reorderColRow_sibling hxid]
  rw [h4, ← List.map_map]
  exact (map_erase_perm Column.order hc).map (rotateShift c.order nb)

theorem col_reorder_dense {s : Store} {i nb : Int} {c : Column}
    (hn : ColIdsNodup s) (hc : c ∈ s.columns) (hi : c.id = i)
    (hD : Dense (columnOrders s)) (h0 : 0 ≤ nb)
    (hb : nb < ((columnOrders s).length : Int)) :
    Dense (columnOrders (ColumnRepository.reorder s i nb).2) := by
  have hmo : c.order ∈ columnOrders s := List.mem_map_of_mem Column.order hc
  have hDc : Dense (c.order :: (columnOrders s).erase c.order) :=
    hD.perm (List.perm_cons_erase hmo)
  have hlen : ((columnOrders s).erase c.order).length = (columnOrders s).length - 1 :=
    List.length_erase_of_mem hmo
  have hpos : 0 < (columnOrders s).length := List.length_pos_of_mem hmo
  have hrot : Dense (nb :: ((columnOrders s).erase c.order).map (rotateShift c.order nb)) := by
    refine dense_rotate hDc h0 ?_
    rw [hlen]
    push_cast
    omega
  exact hrot.perm (col_reorder_orders_perm hn hc hi).symm

/-- ColumnRepository.create in closed form on the orders. -/
theorem col_create_orders (s : Store) (cc : ColumnCreate) (nid : Int) :
    columnOrders (ColumnRepository.create s cc nid).2 =
      (columnOrders s).map (upShift cc.order) ++ [cc.order] := by
  unfold ColumnRepository.create column_queries.SHIFT_COLUMNS_UP columnOrders
  rw [List.map_append, List.map_map, List.map_map]
  congr 1
  refine List.map_congr_left ?_
  intro x _
  simp only [Function.comp, upShift]
  split_ifs <;> rfl

theorem col_create_tasks_eq (s : Store) (cc : ColumnCreate) (nid : Int) :
    (ColumnRepository.create s cc nid).2.tasks = s.tasks := rfl

theorem col_create_dense (s : Store) (cc : ColumnCreate) (nid : Int)
    (hD : Dense (columnOrders s)) (h0 : 0 ≤ cc.order)
    (hp : cc.order ≤ ((columnOrders s).length : Int)) :
    Dense (columnOrders (ColumnRepository.create s cc nid).2) := by
  rw [col_create_orders]
  exact dense_insert hD h0 hp

/-- The found branch of ColumnRepository.delete: the column row is erased,
its tasks disappear with it (the database cascade), and the columns
container is shifted down past the removed order. -/
theorem col_delete_found {s : Store} {i : Int} {c : Column}
    (hn : ColIdsNodup s) (hc : c ∈ s.columns) (hi : c.id = i) :
    ColumnRepository.delete s i =
      (true, ⟨column_queries.SHIFT_COLUMNS_DOWN (s.columns.erase c) c.order,
        s.tasks.filter (fun t => !(t.column_id == i))⟩) := by
  unfold ColumnRepository.delete ColumnRepository.get_by_id column_queries.DELETE_COLUMN
  rw [find?_key_eq_some Column.id hn hc hi, filter_key_eq_single Column.id hn hc hi,
    filter_key_ne_eq_erase Column.id hn hc hi]
  rfl

theorem col_delete_dense {s : Store} {i : Int} {c : Column}
    (hn : ColIdsNodup s) (hc : c ∈ s.columns) (hi : c.id = i)
    (hD : Dense (columnOrders s)) :
    Dense (columnOrders (ColumnRepository.delete s i).2) := by
  have hmo : c.order ∈ columnOrders s := List.mem_map_of_mem Column.order hc
  have hDc : Dense (c.order :: (columnOrders s).erase c.order) :=
    hD.perm (List.perm_cons_erase hmo)
  rw [col_delete_found hn hc hi]
  show Dense ((column_queries.SHIFT_COLUMNS_DOWN (s.columns.erase c) c.order).map Column.order)
  unfold column_queries.SHIFT_COLUMNS_DOWN
  have h1 : ((s.columns.erase c).map fun x =>
      if c.order < x.order then { x with order := x.order - 1 } else x).map Column.order =
      ((s.columns.erase c).map Column.order).map (downShift c.order) := by
    rw [List.map_map, List.map_map]
    refine List.map_congr_left ?_
    intro x _
    simp only [Function.comp, downShift]
    split_ifs <;> rfl
  rw [h1]
  refine (dense_remove hDc).perm ?_
  exact ((map_erase_perm Column.order hc).map (downShift c.order)).symm

/-- Task containers after a column delete: the deleted column's container
becomes empty; every other container is untouched. -/
theorem col_delete_tasksIn {s : Store} {i : Int} {c : Column}
    (hn : ColIdsNodup s) (hc : c ∈ s.columns) (hi : c.id = i) (d : Int) :
    tasksIn (ColumnRepository.delete s i).2 d =
      if d = i then [] else tasksIn s d := by
  rw [col_delete_found hn hc hi]
  show (s.tasks.filter (fun t => !(t.column_id == i))).filter
    (fun t => t.column_id == d) = _
  rw [List.filter_filter]
  split_ifs with hd
  · subst hd
    rw [List.filter_eq_nil_iff]
    intro x _
    simp only [Bool.and_eq_true, beq_iff_eq, Bool.not_eq_true', beq_eq_false_iff_ne, ne_eq]
    intro hcontra
    exact hcontra.2 hcontra.1
  · rw [tasksIn]
    refine List.filter_congr ?_
    intro x _
    by_cases hx : x.column_id = d
    · simp [hx, hd]
    · simp [hx]

/-- ColumnRepository.update with unchanged order writes title through
UPDATE_COLUMN; with changed order it delegates to reorder. -/
theorem col_update_found_same {s : Store} {i : Int} {u : ColumnUpdate} {c : Column}
    (hn : ColIdsNodup s) (hc : c ∈ s.columns) (hi : c.id = i)
    (hord : u.order.getD c.order = c.order) :
    ColumnRepository.update s i u =
      (some { c with title := u.title.getD c.title, order := u.order.getD c.order },
        { s with columns := s.columns.map fun x =>
          if x.id = i then
            { x with title := u.title.getD c.title, order := u.order.getD c.order }
          else x }) := by
  unfold ColumnRepository.update ColumnRepository.get_by_id column_queries.UPDATE_COLUMN
  simp only [find?_key_eq_some Column.id hn hc hi]
  rw [if_neg (by simp [hord])]
  rw [filter_key_eq_single Column.id hn hc hi]
  rfl

theorem col_update_found_diff {s : Store} {i : Int} {u : ColumnUpdate} {c : Column}
    (hn : ColIdsNodup s) (hc : c ∈ s.columns) (hi : c.id = i)
    (hord : u.order.getD c.order ≠ c.order) :
    ColumnRepository.update s i u = ColumnRepository.reorder s i (u.order.getD c.order) := by
  unfold ColumnRepository.update ColumnRepository.get_by_id
  simp only [find?_key_eq_some Column.id hn hc hi]
  rw [if_pos (by simpa using hord)]

theorem col_update_same_orders {s : Store} {i : Int} {u : ColumnUpdate} {c : Column}
    (hn : ColIdsNodup s) (hc : c ∈ s.columns) (hi : c.id = i)
    (hord : u.order.getD c.order = c.order) :
    columnOrders (ColumnRepository.update s i u).2 = columnOrders s := by
  rw [col_update_found_same hn hc hi hord]
  show (s.columns.map _).map Column.order = _
  rw [List.map_map]
  refine List.map_congr_left ?_
  intro x hx
  simp only [Function.comp]
  by_cases hxi : x.id = i
  · have hxc : x = c := List.inj_on_of_nodup_map hn hx hc (by rw [hxi, hi])
    rw [if_pos hxi]
    show u.order.getD c.order = x.order
    rw [hord, hxc]
  · rw [if_neg hxi]

/-! Not-found behaviour of the column-store operations. -/

theorem col_update_not_found {s : Store} {i : Int} (u : ColumnUpdate)
    (h : ∀ x ∈ s.columns, x.id ≠ i) :
    ColumnRepository.update s i u = (none, s) := by
  unfold ColumnRepository.update ColumnRepository.get_by_id
  rw [find?_key_eq_none Column.id h]

theorem col_delete_not_found {s : Store} {i : Int} (h : ∀ x ∈ s.columns, x.id ≠ i) :
    ColumnRepository.delete s i = (false, s) := by
  unfold ColumnRepository.delete ColumnRepository.get_by_id
  rw [find?_key_eq_none Column.id h]

theorem col_reorder_not_found {s : Store} {i nb : Int}
    (h : ∀ x ∈ s.columns, x.id ≠ i) :
    ColumnRepository.reorder s i nb = (none, s) := by
  unfold ColumnRepository.reorder column_queries.REORDER_COLUMN
  rw [find?_key_eq_none Column.id h]
  rfl

/-! ### Glue lemmas for assembling the claims -/

theorem get_by_id_mem {s : Store} {i : Int} {t : Task}
    (hf : TaskRepository.get_by_id s i = some t) : t ∈ s.tasks :=
  List.mem_of_find?_eq_some hf

theorem get_by_id_id {s : Store} {i : Int} {t : Task}
    (hf : TaskRepository.get_by_id s i = some t) : t.id = i := by
  have := List.find?_some hf
  simpa using this

theorem col_get_by_id_mem {s : Store} {i : Int} {c : Column}
    (hf : ColumnRepository.get_by_id s i = some c) : c ∈ s.columns :=
  List.mem_of_find?_eq_some hf

theorem col_get_by_id_id {s : Store} {i : Int} {c : Column}
    (hf : ColumnRepository.get_by_id s i = some c) : c.id = i := by
  have := List.find?_some hf
  simpa using this

theorem key_absent_of_find?_none {α β : Type} [BEq β] [LawfulBEq β] {key : α → β}
    {l : List α} {i : β} (h : l.find? (fun x => key x == i) = none) :
    ∀ x ∈ l, key x ≠ i := by
  rw [List.find?_eq_none] at h
  intro x hx he
  exact h x hx (by simp [he])

theorem delete_columns_eq (s : Store) (i : Int) :
    (TaskRepository.delete s i).2.columns = s.columns := by
  unfold TaskRepository.delete TaskRepository.get_by_id
  cases hf : s.tasks.find? (fun x => x.id == i) with
  | none => rfl
  | some t' =>
    simp only [hf]
    cases hh : (task_queries.DELETE_TASK s.tasks i).2.head? with
    | none => simp only [hh]
    | some r => simp only [hh]

theorem taskOrders_congr {s s2 : Store} {c : Int}
    (h : tasksIn s2 c = tasksIn s c) : taskOrders s2 c = taskOrders s c := by
  rw [taskOrders, taskOrders, h]

/-- StoreInv is preserved by an in-range reorder of an existing task. -/
theorem reorder_storeinv {s : Store} {i nb : Int} {t : Task}
    (hInv : StoreInv s) (hn : IdsNodup s) (ht : t ∈ s.tasks) (hi : t.id = i)
    (h0 : 0 ≤ nb) (hb : nb < ((taskOrders s t.column_id).length : Int)) :
    StoreInv (TaskRepository.reorder_in_column s i nb).2 := by
  constructor
  · show Dense ((TaskRepository.reorder_in_column s i nb).2.columns.map Column.order)
    rw [reorder_columns_eq]
    exact hInv.1
  · intro c
    by_cases hc : c = t.column_id
    · subst hc
      exact reorder_dense_target hn ht hi (hInv.2 _) h0 hb
    · rw [taskOrders_congr (reorder_tasksIn_other hn ht hi hc)]
      exact hInv.2 c

/-- StoreInv is preserved by an in-range reorder of an existing column. -/
theorem col_reorder_storeinv {s : Store} {j nb : Int} {c : Column}
    (hInv : StoreInv s) (hcn : ColIdsNodup s) (hc : c ∈ s.columns) (hj : c.id = j)
    (h0 : 0 ≤ nb) (hb : nb < ((columnOrders s).length : Int)) :
    StoreInv (ColumnRepository.reorder s j nb).2 := by
  constructor
  · exact col_reorder_dense hcn hc hj hInv.1 h0 hb
  · intro d
    have he : tasksIn (ColumnRepository.reorder s j nb).2 d = tasksIn s d := by
      rw [tasksIn, tasksIn, col_reorder_tasks_eq]
    rw [taskOrders_congr he]
    exact hInv.2 d

/-- A move whose target is the task's current column delegates to
reorder_in_column before any shift statement runs. -/
theorem move_same_column_delegates (s : Store) (i p : Int) (t : Task)
    (hf : TaskRepository.get_by_id s i = some t) :
    TaskRepository.move_to_column s i t.column_id p =
      TaskRepository.reorder_in_column s i p := by
  unfold TaskRepository.move_to_column
  rw [hf]
  simp only [if_pos rfl, if_true]

/-- Round-trip core for the columns container: repositioning a column of
the dense global container to b and then back to its original order
restores the entire store, and the second call returns the original row. -/
theorem col_reorder_roundtrip {s : Store} {j b : Int} {c : Column}
    (hn : ColIdsNodup s) (hc : c ∈ s.columns) (hj : c.id = j)
    (hD : Dense (columnOrders s)) :
    (ColumnRepository.reorder (ColumnRepository.reorder s j b).2 j c.order).2 = s ∧
    (ColumnRepository.reorder (ColumnRepository.reorder s j b).2 j c.order).1 = some c := by
  have hs1 := @col_reorder_state_found s j b c hn hc hj
  have hids : (ColumnRepository.reorder s j b).2.columns.map Column.id =
      s.columns.map Column.id := by
    rw [hs1, List.map_map]
    exact List.map_congr_left fun x _ => reorderColRow_id j b c x
  have hn1 : ColIdsNodup (ColumnRepository.reorder s j b).2 := by
    show ((ColumnRepository.reorder s j b).2.columns.map Column.id).Nodup
    rw [hids]
    exact hn
  have hc1 : ({ c with order := b } : Column) ∈ (ColumnRepository.reorder s j b).2.columns := by
    rw [hs1, ← reorderColRow_self hj]
    exact List.mem_map_of_mem _ hc
  have hj1 : ({ c with order := b } : Column).id = j := hj
  have hstate2 := @col_reorder_state_found (ColumnRepository.reorder s j b).2 j
    c.order { c with order := b } hn1 hc1 hj1
  have hcomp : (ColumnRepository.reorder s j b).2.columns.map
      (reorderColRow j c.order { c with order := b }) = s.columns := by
    rw [hs1, List.map_map]
    refine map_eq_self ?_
    intro x hxmem
    simp only [Function.comp]
    by_cases hxj : x.id = j
    · have hxc : x = c := List.inj_on_of_nodup_map hn hxmem hc (by rw [hxj, hj])
      rw [hxc, reorderColRow_self hj, reorderColRow_self hj1]
    · have ho : x.order ≠ c.order := by
        intro he
        apply hxj
        have hxc : x = c := List.inj_on_of_nodup_map hD.nodup hxmem hc he
        rw [hxc, hj]
      have hx2 := @reorderColRow_sibling j c.order ({ c with order := b } : Column)
        ({ x with order := rotateShift c.order b x.order } : Column) hxj
      rw [reorderColRow_sibling hxj, hx2]
      show ({ x with order := rotateShift b c.order (rotateShift c.order b x.order) } : Column) = x
      rw [rotateShift_inv ho]
  refine ⟨?_, ?_⟩
  · have hrec : (ColumnRepository.reorder (ColumnRepository.reorder s j b).2 j c.order).2 =
        { s with columns := (ColumnRepository.reorder
          (ColumnRepository.reorder s j b).2 j c.order).2.columns } := rfl
    rw [hrec, hstate2, hcomp]
  · have hret := @col_reorder_ret_found (ColumnRepository.reorder s j b).2 j
      c.order { c with order := b } hn1 hc1 hj1
    rw [hret]

/-! ### The claims -/

/-- C3 (amended): reorder_in_column does NOT clamp new_order to [0, n-1];
for an existing task at old_order a in a dense container and any new_order
b with 0 ≤ b ≤ n-1, the operation returns the task with order b, rewrites
its container exactly as the spec's reposition (the moved row to b; with
b < a every sibling with order in [b, a) incremented by 1; with a < b
every sibling with order in (a, b] decremented by 1; every other sibling
untouched — repositionSpecRow together with rotateShift state precisely
these three cases, and never a full resort), keeps the container dense,
leaves every other container unchanged, and with b = a is a complete
no-op on the store. -/
theorem reorder_reposition_postcondition (s : Store) (i nb : Int) (t : Task)
    (hn : IdsNodup s) (hf : TaskRepository.get_by_id s i = some t)
    (hD : Dense (taskOrders s t.column_id)) (h0 : 0 ≤ nb)
    (hb : nb < ((taskOrders s t.column_id).length : Int)) :
    (TaskRepository.reorder_in_column s i nb).1 = some { t with order := nb } ∧
    tasksIn (TaskRepository.reorder_in_column s i nb).2 t.column_id =
      (tasksIn s t.column_id).map (repositionSpecRow i t.order nb) ∧
    Dense (taskOrders (TaskRepository.reorder_in_column s i nb).2 t.column_id) ∧
    (∀ c : Int, c ≠ t.column_id →
      tasksIn (TaskRepository.reorder_in_column s i nb).2 c = tasksIn s c) ∧
    (nb = t.order → TaskRepository.reorder_in_column s i nb = (some t, s)) := by
  have ht := get_by_id_mem hf
  have hi := get_by_id_id hf
  refine ⟨reorder_ret_found hn ht hi, reorder_tasksIn_target hn ht hi,
    reorder_dense_target hn ht hi hD h0 hb,
    fun c hc => reorder_tasksIn_other hn ht hi hc, ?_⟩
  intro hnb
  rw [hnb]
  exact reorder_self_noop hn ht hi

/-- C4 (amended): move_to_column does NOT clamp the requested position;
for an existing task in column A and a distinct target column B of size m
with dense tasks, and any p with 0 ≤ p ≤ m, the move shifts B's siblings
at order ≥ p up by one and places the task in B at order p, removes it
from A shifting A's siblings above its old order down by one; afterwards
A is dense of size n-1 and B is dense of size m+1, the returned row is
the task with column B and order p, and every other container is
unchanged. -/
theorem move_postcondition (s : Store) (i targetCol p : Int) (t : Task)
    (hn : IdsNodup s) (hf : TaskRepository.get_by_id s i = some t)
    (hcol : ¬ t.column_id = targetCol)
    (hDs : Dense (taskOrders s t.column_id)) (hDt : Dense (taskOrders s targetCol))
    (h0 : 0 ≤ p) (hp : p ≤ ((taskOrders s targetCol).length : Int)) :
    (TaskRepository.move_to_column s i targetCol p).1 = some (movedTask t targetCol p) ∧
    (tasksIn (TaskRepository.move_to_column s i targetCol p).2 targetCol).Perm
      (movedTask t targetCol p ::
        (tasksIn s targetCol).map
          (fun x => if p ≤ x.order then { x with order := x.order + 1 } else x)) ∧
    Dense (taskOrders (TaskRepository.move_to_column s i targetCol p).2 targetCol) ∧
    (taskOrders (TaskRepository.move_to_column s i targetCol p).2 targetCol).length =
      (taskOrders s targetCol).length + 1 ∧
    (tasksIn (TaskRepository.move_to_column s i targetCol p).2 t.column_id).Perm
      (((tasksIn s t.column_id).erase t).map
        (fun x => if t.order < x.order then { x with order := x.order - 1 } else x)) ∧
    Dense (taskOrders (TaskRepository.move_to_column s i targetCol p).2 t.column_id) ∧
    (taskOrders (TaskRepository.move_to_column s i targetCol p).2 t.column_id).length =
      (taskOrders s t.column_id).length - 1 ∧
    ∀ c : Int, c ≠ t.column_id → c ≠ targetCol →
      (tasksIn (TaskRepository.move_to_column s i targetCol p).2 c).Perm (tasksIn s c) := by
  have ht := get_by_id_mem hf
  have hi := get_by_id_id hf
  have hdt := @move_dense_target s i targetCol p t hn ht hi hcol hDt h0 hp
  have hds := @move_dense_source s i targetCol p t hn ht hi hcol hDs
  exact ⟨move_ret_found hn ht hi hcol, move_tasksIn_target hn ht hi hcol,
    hdt.1, hdt.2, move_tasksIn_source hn ht hi hcol, hds.1, hds.2,
    fun c hcs hct => move_tasksIn_other hn ht hi hcol hcs hct⟩

/-- C5: deleting an existing task of a dense container returns True,
removes exactly that row, decrements by one the order of every remaining
sibling above the removed order while leaving siblings below it untouched
(the mapped erase states both at once), leaves the container dense with
size n-1, and leaves every other container unchanged. -/
theorem delete_remove_postcondition (s : Store) (i : Int) (t : Task)
    (hn : IdsNodup s) (hf : TaskRepository.get_by_id s i = some t)
    (hD : Dense (taskOrders s t.column_id)) :
    (TaskRepository.delete s i).1 = true ∧
    tasksIn (TaskRepository.delete s i).2 t.column_id =
      ((tasksIn s t.column_id).erase t).map
        (fun x => if t.order < x.order then { x with order := x.order - 1 } else x) ∧
    Dense (taskOrders (TaskRepository.delete s i).2 t.column_id) ∧
    (taskOrders (TaskRepository.delete s i).2 t.column_id).length =
      (taskOrders s t.column_id).length - 1 ∧
    ∀ c : Int, c ≠ t.column_id →
      tasksIn (TaskRepository.delete s i).2 c = tasksIn s c := by
  have ht := get_by_id_mem hf
  have hi := get_by_id_id hf
  have hdd := delete_dense_target hn ht hi hD
  refine ⟨?_, delete_tasksIn_target hn ht hi, hdd.1, hdd.2,
    fun c hc => delete_tasksIn_other hn ht hi hc⟩
  rw [delete_found hn ht hi]

/-- C6: for every container — the task set of a column, or the global
column set — with dense orders, an existing entity at order a and any
valid order b (0 ≤ b ≤ n-1), reorder to b followed by reorder back to a
restores the entire store — the exact original order of every entity, not
only the moved one — and the second call returns the original row. -/
theorem reorder_roundtrip_restores (s : Store) :
    (∀ (i b : Int) (t : Task), IdsNodup s →
      TaskRepository.get_by_id s i = some t →
      Dense (taskOrders s t.column_id) → 0 ≤ b →
      b < ((taskOrders s t.column_id).length : Int) →
      (TaskRepository.reorder_in_column
        (TaskRepository.reorder_in_column s i b).2 i t.order).2 = s ∧
      (TaskRepository.reorder_in_column
        (TaskRepository.reorder_in_column s i b).2 i t.order).1 = some t) ∧
    (∀ (j b : Int) (c : Column), ColIdsNodup s →
      ColumnRepository.get_by_id s j = some c →
      Dense (columnOrders s) → 0 ≤ b →
      b < ((columnOrders s).length : Int) →
      (ColumnRepository.reorder
        (ColumnRepository.reorder s j b).2 j c.order).2 = s ∧
      (ColumnRepository.reorder
        (ColumnRepository.reorder s j b).2 j c.order).1 = some c) := by
  constructor
  · intro i b t hn hf hD h0 hb
    exact reorder_roundtrip hn (get_by_id_mem hf) (get_by_id_id hf) hD
  · intro j b c hcn hf hD h0 hb
    exact col_reorder_roundtrip hcn (col_get_by_id_mem hf) (col_get_by_id_id hf) hD

/-- C7 (amended): update of an existing task applies title and description
only when the payload leaves the order unchanged; when the payload's
effective order differs from the current order, the whole update is
delegated to reorder_in_column, the returned entity keeps its OLD title
and description (the provided non-order fields are ignored), and only the
order changes. -/
theorem update_contract (s : Store) (i : Int) (u : TaskUpdate) (t : Task)
    (hn : IdsNodup s) (hf : TaskRepository.get_by_id s i = some t) :
    (u.order.getD t.order = t.order →
      (TaskRepository.update s i u).1 =
        some { t with
          title := u.title.getD t.title
          description := u.description.getD t.description
          order := u.order.getD t.order } ∧
      ∀ c : Int, taskOrders (TaskRepository.update s i u).2 c = taskOrders s c) ∧
    (u.order.getD t.order ≠ t.order →
      TaskRepository.update s i u =
        TaskRepository.reorder_in_column s i (u.order.getD t.order) ∧
      (TaskRepository.update s i u).1 = some { t with order := u.order.getD t.order }) := by
  have ht := get_by_id_mem hf
  have hi := get_by_id_id hf
  constructor
  · intro hord
    constructor
    · rw [update_found_same hn ht hi hord]
    · exact update_same_taskOrders hn ht hi hord
  · intro hord
    have hdel := update_found_diff hn ht hi hord
    refine ⟨hdel, ?_⟩
    have : (TaskRepository.update s i u).1 =
        (TaskRepository.reorder_in_column s i (u.order.getD t.order)).1 := by rw [hdel]
    rw [this, reorder_ret_found hn ht hi]

/-- C8: an operation on an id absent from the store returns its not-found
signal (None or False) and leaves the store completely unchanged, for
every task-store and column-store mutation. -/
theorem not_found_atomicity (s : Store) (i j nb p tcol : Int)
    (u : TaskUpdate) (v : ColumnUpdate)
    (hti : ∀ x ∈ s.tasks, x.id ≠ i) (hcj : ∀ x ∈ s.columns, x.id ≠ j) :
    TaskRepository.update s i u = (none, s) ∧
    TaskRepository.delete s i = (false, s) ∧
    TaskRepository.reorder_in_column s i nb = (none, s) ∧
    TaskRepository.move_to_column s i tcol p = (none, s) ∧
    ColumnRepository.update s j v = (none, s) ∧
    ColumnRepository.delete s j = (false, s) ∧
    ColumnRepository.reorder s j nb = (none, s) :=
  ⟨update_not_found u hti, delete_not_found hti, reorder_not_found hti,
    move_not_found hti, col_update_not_found v hcj, col_delete_not_found hcj,
    col_reorder_not_found hcj⟩

/-- C10: moving an existing task into its own current column produces
exactly the same result and the same final store as reordering it there —
the source delegates before any shift statement runs. -/
theorem move_same_column_is_reorder (s : Store) (i p : Int) (t : Task)
    (hf : TaskRepository.get_by_id s i = some t) :
    TaskRepository.move_to_column s i t.column_id p =
      TaskRepository.reorder_in_column s i p :=
  move_same_column_delegates s i p t hf

/-- C1 (amended): the store does NOT clamp out-of-range requested orders,
so the dense-ordering invariant is preserved by every store operation
only when the requested order is within range (create: 0 ≤ p ≤ n;
reorder and order-changing update: 0 ≤ p ≤ n-1; move: 0 ≤ p ≤ m of the
target, or the reorder bound when target = current column); delete needs
no bound. Under those bounds, after any of create, update, delete,
reorder or move_to_column — on the task store or the column store — the
columns container and every task container are again dense. -/
theorem dense_invariant_preserved (s : Store)
    (hInv : StoreInv s) (hn : IdsNodup s) (hcn : ColIdsNodup s) :
    (∀ (tc : TaskCreate) (nid : Int), 0 ≤ tc.order →
      tc.order ≤ ((taskOrders s tc.column_id).length : Int) →
      StoreInv (TaskRepository.create s tc nid).2) ∧
    (∀ (i : Int) (u : TaskUpdate),
      (∀ t, TaskRepository.get_by_id s i = some t →
        0 ≤ u.order.getD t.order ∧
        (u.order.getD t.order ≠ t.order →
          u.order.getD t.order < ((taskOrders s t.column_id).length : Int))) →
      StoreInv (TaskRepository.update s i u).2) ∧
    (∀ i : Int, StoreInv (TaskRepository.delete s i).2) ∧
    (∀ i nb : Int,
      (∀ t, TaskRepository.get_by_id s i = some t →
        0 ≤ nb ∧ nb < ((taskOrders s t.column_id).length : Int)) →
      StoreInv (TaskRepository.reorder_in_column s i nb).2) ∧
    (∀ i tcol p : Int,
      (∀ t, TaskRepository.get_by_id s i = some t →
        0 ≤ p ∧
        (t.column_id = tcol → p < ((taskOrders s t.column_id).length : Int)) ∧
        (t.column_id ≠ tcol → p ≤ ((taskOrders s tcol).length : Int))) →
      StoreInv (TaskRepository.move_to_column s i tcol p).2) ∧
    (∀ (cc : ColumnCreate) (nid : Int), 0 ≤ cc.order →
      cc.order ≤ ((columnOrders s).length : Int) →
      StoreInv (ColumnRepository.create s cc nid).2) ∧
    (∀ (j : Int) (v : ColumnUpdate),
      (∀ c, ColumnRepository.get_by_id s j = some c →
        0 ≤ v.order.getD c.order ∧
        (v.order.getD c.order ≠ c.order →
          v.order.getD c.order < ((columnOrders s).length : Int))) →
      StoreInv (ColumnRepository.update s j v).2) ∧
    (∀ j : Int, StoreInv (ColumnRepository.delete s j).2) ∧
    (∀ j nb : Int,
      (∀ c, ColumnRepository.get_by_id s j = some c →
        0 ≤ nb ∧ nb < ((columnOrders s).length : Int)) →
      StoreInv (ColumnRepository.reorder s j nb).2) := by
  refine ⟨?_, ?_, ?_, ?_, ?_, ?_, ?_, ?_, ?_⟩
  · -- task create
    intro tc nid h0 hp
    constructor
    · show Dense ((TaskRepository.create s tc nid).2.columns.map Column.order)
      rw [create_columns_eq]
      exact hInv.1
    · intro c
      by_cases hc : c = tc.column_id
      · subst hc
        rw [create_taskOrders_target]
        exact dense_insert (hInv.2 _) h0 hp
      · rw [taskOrders_congr (create_tasksIn_other s tc nid hc)]
        exact hInv.2 c
  · -- task update
    intro i u hhyp
    cases hf : TaskRepository.get_by_id s i with
    | none =>
      rw [update_not_found u (key_absent_of_find?_none hf)]
      exact hInv
    | some t =>
      have ht := get_by_id_mem hf
      have hi := get_by_id_id hf
      obtain ⟨h0, hlt⟩ := hhyp t hf
      by_cases hord : u.order.getD t.order = t.order
      · constructor
        · show Dense ((TaskRepository.update s i u).2.columns.map Column.order)
          rw [update_columns_eq]
          exact hInv.1
        · intro c
          rw [update_same_taskOrders hn ht hi hord c]
          exact hInv.2 c
      · rw [update_found_diff hn ht hi hord]
        exact reorder_storeinv hInv hn ht hi h0 (hlt hord)
  · -- task delete
    intro i
    cases hf : TaskRepository.get_by_id s i with
    | none =>
      rw [delete_not_found (key_absent_of_find?_none hf)]
      exact hInv
    | some t =>
      have ht := get_by_id_mem hf
      have hi := get_by_id_id hf
      constructor
      · show Dense ((TaskRepository.delete s i).2.columns.map Column.order)
        rw [delete_columns_eq]
        exact hInv.1
      · intro c
        by_cases hc : c = t.column_id
        · subst hc
          exact (delete_dense_target hn ht hi (hInv.2 _)).1
        · rw [taskOrders_congr (delete_tasksIn_other hn ht hi hc)]
          exact hInv.2 c
  · -- task reorder
    intro i nb hhyp
    cases hf : TaskRepository.get_by_id s i with
    | none =>
      rw [reorder_not_found (key_absent_of_find?_none hf)]
      exact hInv
    | some t =>
      obtain ⟨h0, hb⟩ := hhyp t hf
      exact reorder_storeinv hInv hn (get_by_id_mem hf) (get_by_id_id hf) h0 hb
  · -- task move
    intro i tcol p hhyp
    cases hf : TaskRepository.get_by_id s i with
    | none =>
      rw [move_not_found (key_absent_of_find?_none hf)]
      exact hInv
    | some t =>
      have ht := get_by_id_mem hf
      have hi := get_by_id_id hf
      obtain ⟨h0, hsame, hdiff⟩ := hhyp t hf
      by_cases hcol : t.column_id = tcol
      · have heq : TaskRepository.move_to_column s i tcol p =
            TaskRepository.reorder_in_column s i p := by
          rw [← hcol]
          exact move_same_column_delegates s i p t hf
        rw [heq]
        exact reorder_storeinv hInv hn ht hi h0 (hsame hcol)
      · constructor
        · show Dense ((TaskRepository.move_to_column s i tcol p).2.columns.map Column.order)
          rw [move_columns_eq]
          exact hInv.1
        · intro c
          by_cases hc1 : c = tcol
          · subst hc1
            exact (@move_dense_target s i c p t hn ht hi hcol (hInv.2 c) h0
              (hdiff hcol)).1
          · by_cases hc2 : c = t.column_id
            · subst hc2
              exact (@move_dense_source s i tcol p t hn ht hi hcol
                (hInv.2 t.column_id)).1
            · have hperm := (@move_tasksIn_other s i tcol p t hn ht hi hcol c hc2 hc1).map
                Task.order
              exact (hInv.2 c).perm hperm.symm
  · -- column create
    intro cc nid h0 hp
    constructor
    · exact col_create_dense s cc nid hInv.1 h0 hp
    · intro c
      have he : tasksIn (ColumnRepository.create s cc nid).2 c = tasksIn s c := by
        rw [tasksIn, tasksIn, col_create_tasks_eq]
      rw [taskOrders_congr he]
      exact hInv.2 c
  · -- column update
    intro j v hhyp
    cases hf : ColumnRepository.get_by_id s j with
    | none =>
      rw [col_update_not_found v (key_absent_of_find?_none hf)]
      exact hInv
    | some c =>
      have hc := col_get_by_id_mem hf
      have hj := col_get_by_id_id hf
      obtain ⟨h0, hlt⟩ := hhyp c hf
      by_cases hord : v.order.getD c.order = c.order
      · constructor
        · show Dense (columnOrders (ColumnRepository.update s j v).2)
          rw [col_update_same_orders hcn hc hj hord]
          exact hInv.1
        · intro d
          have he : tasksIn (ColumnRepository.update s j v).2 d = tasksIn s d := by
            rw [col_update_found_same hcn hc hj hord]
            rfl
          rw [taskOrders_congr he]
          exact hInv.2 d
      · rw [col_update_found_diff hcn hc hj hord]
        exact col_reorder_storeinv hInv hcn hc hj h0 (hlt hord)
  · -- column delete
    intro j
    cases hf : ColumnRepository.get_by_id s j with
    | none =>
      rw [col_delete_not_found (key_absent_of_find?_none hf)]
      exact hInv
    | some c =>
      have hc := col_get_by_id_mem hf
      have hj := col_get_by_id_id hf
      constructor
      · exact col_delete_dense hcn hc hj hInv.1
      · intro d
        rw [taskOrders, col_delete_tasksIn hcn hc hj d]
        by_cases hd : d = j
        · rw [if_pos hd]
          exact dense_nil
        · rw [if_neg hd]
          exact hInv.2 d
  · -- column reorder
    intro j nb hhyp
    cases hf : ColumnRepository.get_by_id s j with
    | none =>
      rw [col_reorder_not_found (key_absent_of_find?_none hf)]
      exact hInv
    | some c =>
      obtain ⟨h0, hb⟩ := hhyp c hf
      exact col_reorder_storeinv hInv hcn (col_get_by_id_mem hf) (col_get_by_id_id hf) h0 hb

/-- C9: the repository code issues the statements of a move on one pooled
connection with no transaction block anywhere in the sources, so each
statement commits separately; if the caller abandons the request after the
first statement, the persisted state is move_to_column_after_shift. On the
concrete board X(id 1) = [A:0, B:1] and Y(id 2) = [C:0], that intermediate
state has Y's orders at {1} — a gap — although both containers were dense
before: the partial shift is observable, contradicting the required
transactional atomicity. -/
theorem move_partial_shift_observable :
    Dense (taskOrders ⟨[⟨1, "X", 0⟩, ⟨2, "Y", 1⟩],
      [⟨10, "A", none, 1, 0⟩, ⟨11, "B", none, 1, 1⟩, ⟨12, "C", none, 2, 0⟩]⟩ 1) ∧
    Dense (taskOrders ⟨[⟨1, "X", 0⟩, ⟨2, "Y", 1⟩],
      [⟨10, "A", none, 1, 0⟩, ⟨11, "B", none, 1, 1⟩, ⟨12, "C", none, 2, 0⟩]⟩ 2) ∧
    ¬ Dense (taskOrders (TaskRepository.move_to_column_after_shift
      ⟨[⟨1, "X", 0⟩, ⟨2, "Y", 1⟩],
        [⟨10, "A", none, 1, 0⟩, ⟨11, "B", none, 1, 1⟩, ⟨12, "C", none, 2, 0⟩]⟩ 2 0) 2) := by
  decide

/-! ### Concrete boards for counterexamples and witnesses -/

/-- One column (id 1) holding tasks [A:0, B:1, C:2, D:3] (ids 1..4). -/
def boardABCD : Store :=
  ⟨[⟨1, "Main", 0⟩],
   [⟨1, "A", none, 1, 0⟩, ⟨2, "B", none, 1, 1⟩, ⟨3, "C", none, 1, 2⟩, ⟨4, "D", none, 1, 3⟩]⟩

/-- Columns X (id 1) = [A:0, B:1] and Y (id 2) = [C:0] (task ids 10..12). -/
def boardXY : Store :=
  ⟨[⟨1, "X", 0⟩, ⟨2, "Y", 1⟩],
   [⟨10, "A", none, 1, 0⟩, ⟨11, "B", none, 1, 1⟩, ⟨12, "C", none, 2, 0⟩]⟩

/-- C1, failure of the claim as stated: a requested order beyond the
container size is NOT clamped. The columns container [0] is dense; after
creating a column at requested order 3 the orders are {0, 3} — a gap. -/
theorem dense_invariant_counterexample :
    Dense (columnOrders (⟨[⟨1, "Todo", 0⟩], []⟩ : Store)) ∧
    ¬ Dense (columnOrders (ColumnRepository.create ⟨[⟨1, "Todo", 0⟩], []⟩ ⟨"Z", 3⟩ 2).2) := by
  decide

/-- C1, witness: the amended preservation theorem applied to a concrete
store and an in-range create. -/
theorem dense_invariant_preserved_witness :
    StoreInv (TaskRepository.create ⟨[⟨1, "Todo", 0⟩], []⟩ ⟨"a", none, 1, 0⟩ 2).2 :=
  (dense_invariant_preserved ⟨[⟨1, "Todo", 0⟩], []⟩
    ⟨by decide, fun c => dense_nil⟩ (by decide) (by decide)).1 ⟨"a", none, 1, 0⟩ 2
    (by decide) (by decide)

/-- C3, failure of the claim as stated: reorder does NOT clamp new_order
to [0, n-1]. Reordering D (id 4) to 9 in the dense container [0..3]
stores it at order 9, leaving a gap. -/
theorem reorder_no_clamp_counterexample :
    (TaskRepository.reorder_in_column boardABCD 4 9).1 = some ⟨4, "D", none, 1, 9⟩ ∧
    ¬ Dense (taskOrders (TaskRepository.reorder_in_column boardABCD 4 9).2 1) := by
  decide

/-- C3, witness: the spec's scenario — [A:0, B:1, C:2, D:3], reorder D to
order 1 — gives [A:0, D:1, B:2, C:3]. -/
theorem reorder_reposition_witness :
    (TaskRepository.reorder_in_column boardABCD 4 1).1 = some ⟨4, "D", none, 1, 1⟩ ∧
    tasksIn (TaskRepository.reorder_in_column boardABCD 4 1).2 1 =
      (tasksIn boardABCD 1).map (repositionSpecRow 4 3 1) ∧
    Dense (taskOrders (TaskRepository.reorder_in_column boardABCD 4 1).2 1) ∧
    taskOrders (TaskRepository.reorder_in_column boardABCD 4 1).2 1 = [0, 2, 3, 1] :=
  ⟨(reorder_reposition_postcondition boardABCD 4 1 ⟨4, "D", none, 1, 3⟩
      (by decide) (by decide) (by decide) (by decide) (by decide)).1,
   (reorder_reposition_postcondition boardABCD 4 1 ⟨4, "D", none, 1, 3⟩
      (by decide) (by decide) (by decide) (by decide) (by decide)).2.1,
   (reorder_reposition_postcondition boardABCD 4 1 ⟨4, "D", none, 1, 3⟩
      (by decide) (by decide) (by decide) (by decide) (by decide)).2.2.1,
   by decide⟩

/-- C4, failure of the claim as stated: a move does NOT clamp the target
position. Moving A into the dense column Y = [C:0] at position 5 leaves
Y's orders at {0, 5} — not dense. -/
theorem move_no_clamp_counterexample :
    Dense (taskOrders boardXY 2) ∧
    ¬ Dense (taskOrders (TaskRepository.move_to_column boardXY 10 2 5).2 2) := by
  decide

/-- C4, witness: the spec's scenario — X = [A:0, B:1], Y = [C:0], move A
to Y at order 0 — gives X = [B:0] and Y = [A:0, C:1]. -/
theorem move_postcondition_witness :
    (TaskRepository.move_to_column boardXY 10 2 0).1 =
      some (movedTask ⟨10, "A", none, 1, 0⟩ 2 0) ∧
    Dense (taskOrders (TaskRepository.move_to_column boardXY 10 2 0).2 2) ∧
    Dense (taskOrders (TaskRepository.move_to_column boardXY 10 2 0).2 1) ∧
    taskOrders (TaskRepository.move_to_column boardXY 10 2 0).2 1 = [0] ∧
    (tasksIn (TaskRepository.move_to_column boardXY 10 2 0).2 2).map Task.id = [10, 12] :=
  ⟨(move_postcondition boardXY 10 2 0 ⟨10, "A", none, 1, 0⟩ (by decide) (by decide)
      (by decide) (by decide) (by decide) (by decide) (by decide)).1,
   (move_postcondition boardXY 10 2 0 ⟨10, "A", none, 1, 0⟩ (by decide) (by decide)
      (by decide) (by decide) (by decide) (by decide) (by decide)).2.2.1,
   (move_postcondition boardXY 10 2 0 ⟨10, "A", none, 1, 0⟩ (by decide) (by decide)
      (by decide) (by decide) (by decide) (by decide) (by decide)).2.2.2.2.2.1,
   by decide, by decide⟩

/-- C5, witness: deleting B (id 2, order 1) from [A:0, B:1, C:2, D:3]
leaves the dense container [A:0, C:1, D:2]. -/
theorem delete_remove_witness :
    (TaskRepository.delete boardABCD 2).1 = true ∧
    Dense (taskOrders (TaskRepository.delete boardABCD 2).2 1) ∧
    taskOrders (TaskRepository.delete boardABCD 2).2 1 = [0, 1, 2] :=
  ⟨(delete_remove_postcondition boardABCD 2 ⟨2, "B", none, 1, 1⟩
      (by decide) (by decide) (by decide)).1,
   (delete_remove_postcondition boardABCD 2 ⟨2, "B", none, 1, 1⟩
      (by decide) (by decide) (by decide)).2.2.1,
   by decide⟩

/-- C6, witness: reordering task D (order 3) to 1 and back restores the
task board exactly, and reordering column Y (order 1) to 0 and back
restores the column board exactly. -/
theorem reorder_roundtrip_witness :
    ((TaskRepository.reorder_in_column
      (TaskRepository.reorder_in_column boardABCD 4 1).2 4 3).2 = boardABCD ∧
     (TaskRepository.reorder_in_column
      (TaskRepository.reorder_in_column boardABCD 4 1).2 4 3).1 =
        some ⟨4, "D", none, 1, 3⟩) ∧
    ((ColumnRepository.reorder
      (ColumnRepository.reorder boardXY 2 0).2 2 1).2 = boardXY ∧
     (ColumnRepository.reorder
      (ColumnRepository.reorder boardXY 2 0).2 2 1).1 = some ⟨2, "Y", 1⟩) :=
  ⟨(reorder_roundtrip_restores boardABCD).1 4 1 ⟨4, "D", none, 1, 3⟩
      (by decide) (by decide) (by decide) (by decide) (by decide),
   (reorder_roundtrip_restores boardXY).2 2 0 ⟨2, "Y", 1⟩
      (by decide) (by decide) (by decide) (by decide) (by decide)⟩

/-- C7, failure of the claim as stated: an update that supplies BOTH a new
title and a new order leaves the entity with the OLD title — the title is
dropped because the whole update is delegated to reorder. The claim says
the entity ends with the new title and the new order. -/
theorem update_drops_title_counterexample :
    (TaskRepository.update boardABCD 1 ⟨some "new", none, some 1⟩).1 =
      some ⟨1, "A", none, 1, 1⟩ ∧
    (TaskRepository.update boardABCD 1 ⟨some "new", none, some 1⟩).2.tasks =
      [⟨1, "A", none, 1, 1⟩, ⟨2, "B", none, 1, 0⟩,
       ⟨3, "C", none, 1, 2⟩, ⟨4, "D", none, 1, 3⟩] := by
  decide

/-- C7, witness: the amended contract applied to a title-only update of A,
which does apply the title and moves no order. -/
theorem update_contract_witness :
    (TaskRepository.update boardABCD 1 ⟨some "N", none, none⟩).1 =
      some ⟨1, "N", none, 1, 0⟩ ∧
    taskOrders (TaskRepository.update boardABCD 1 ⟨some "N", none, none⟩).2 1 =
      taskOrders boardABCD 1 :=
  ⟨((update_contract boardABCD 1 ⟨some "N", none, none⟩ ⟨1, "A", none, 1, 0⟩
      (by decide) (by decide)).1 (by decide)).1,
   ((update_contract boardABCD 1 ⟨some "N", none, none⟩ ⟨1, "A", none, 1, 0⟩
      (by decide) (by decide)).1 (by decide)).2 1⟩

/-- C8, witness: operations on the absent ids 99 return their not-found
signals and leave the concrete board untouched. -/
theorem not_found_atomicity_witness :
    TaskRepository.delete boardABCD 99 = (false, boardABCD) ∧
    TaskRepository.reorder_in_column boardABCD 99 0 = (none, boardABCD) ∧
    ColumnRepository.reorder boardABCD 99 0 = (none, boardABCD) :=
  ⟨(not_found_atomicity boardABCD 99 99 0 0 1 ⟨none, none, none⟩ ⟨none, none⟩
      (by decide) (by decide)).2.1,
   (not_found_atomicity boardABCD 99 99 0 0 1 ⟨none, none, none⟩ ⟨none, none⟩
      (by decide) (by decide)).2.2.1,
   (not_found_atomicity boardABCD 99 99 0 0 1 ⟨none, none, none⟩ ⟨none, none⟩
      (by decide) (by decide)).2.2.2.2.2.2⟩

/-- C10, witness: moving D within its own column 1 equals reordering it. -/
theorem move_same_column_witness :
    TaskRepository.move_to_column boardABCD 4 1 1 =
      TaskRepository.reorder_in_column boardABCD 4 1 :=
  move_same_column_is_reorder boardABCD 4 1 ⟨4, "D", none, 1, 3⟩ (by decide)

end TodoBackend
